import Mathlib

/-!
Verification of the build-context packager and compose-to-descriptor
converter of the `defang` CLI (`src/pkg/cli/compose.go`), against its
natural-language specification.

The Go code is shallowly embedded here:

* `NormalizeServiceName` is embedded over `List Char`; the Go code lowercases
  the string (`strings.ToLower`) and then replaces every run of one-or-more
  characters outside `[a-zA-Z0-9]` by a single hyphen
  (`regexp.MustCompile("[^a-zA-Z0-9]+").ReplaceAllLiteralString`).  The
  Unicode case mapping of `strings.ToLower` lives outside the repository, so
  the embedding takes it as a parameter `lower`; the theorems assume of it
  only properties of the real Unicode simple case mapping (idempotence, and
  that `-` is fixed), and the counterexample instantiates it at characters
  where its value is pinned down by the Unicode tables (ASCII, and
  U+212A KELVIN SIGN, which lowercases to `k`).

* `convertPort` is embedded as a function from a port spec to
  `Except String (v1Port × Bool)`; the `Bool` records whether the call set the
  process-wide `HadWarnings` flag (i.e. whether at least one warning was
  logged during the call).

* `createTarball` is embedded over an explicit file-system tree.  A directory
  entry holds its children in the canonical name-sorted order in which
  `filepath.WalkDir` visits them.  The gzip writer, the SHA-256 hash and the
  `patternmatcher` library are external to the repository; they enter the
  model as parameters (`measure` abstracts the length of the compressed bytes
  flushed to the output buffer so far, `compile` abstracts
  `patternmatcher.New` and `enc` abstracts the
  base64(SHA-256(gzip(serialized bytes))) pipeline).  The archive artifact is
  modelled as the list of tar entries: for each entry the header fields the
  code sets (`Name`, `ModTime`, `Uid`, `Gid`) and the ones
  `tar.FileInfoHeader` filled from the file system and the code leaves alone
  (`Mode`, `AccessTime`, `ChangeTime`, `Uname`, `Gname` — the non-zero
  access/change times make `tar.Writer` pick the PAX format, which emits
  them), plus the content bytes.  The emitted byte stream is an injective
  serialization of this entry list.
-/

namespace Defang

instance (priority := low) {e a : Type} [DecidableEq e] [DecidableEq a] : DecidableEq (Except e a) :=
  fun x y =>
    match x, y with
    | .ok u, .ok v =>
      if h : u = v then .isTrue (by rw [h]) else .isFalse (by intro hh; cases hh; exact h rfl)
    | .error u, .error v =>
      if h : u = v then .isTrue (by rw [h]) else .isFalse (by intro hh; cases hh; exact h rfl)
    | .ok _, .error _ => .isFalse (by intro hh; cases hh)
    | .error _, .ok _ => .isFalse (by intro hh; cases hh)

/-! ## Constants (compose.go lines 32-54) -/

def MiB : Nat := 1024 * 1024

/-- ModTime constant `sourceDateEpoch = 315532800` (1980-01-01, as in nix). -/
def sourceDateEpoch : Int := 315532800

/-- Built-in default `.dockerignore` pattern file (compose.go lines 35-53). -/
def defaultDockerIgnore : String :=
  "# Default .dockerignore file for Defang\n**/.DS_Store\n**/.direnv\n**/.envrc\n**/.git\n**/.github\n**/.idea\n**/.next\n**/.vscode\n**/__pycache__\n**/compose.yaml\n**/compose.yml\n**/defang.exe\n**/docker-compose.yml\n**/docker-compose.yaml\n**/node_modules\n**/Thumbs.db\n# Ignore our own binary, but only in the root to avoid ignoring subfolders\ndefang"

/-! ## NormalizeServiceName (compose.go lines 56-70) -/

/-- Character class of the regexp `[^a-zA-Z0-9]`: `isServiceNameChar c` holds
exactly when `c` is an ASCII alphanumeric, i.e. when the regexp does NOT
match `c`. -/
def isServiceNameChar (c : Char) : Bool :=
  (decide ( 'a' ≤ c) && decide (c ≤ 'z')) ||
  (decide ( 'A' ≤ c) && decide (c ≤ 'Z')) ||
  (decide ( '0' ≤ c) && decide (c ≤ '9'))

mutual

/-- Replacement of every run of one-or-more non-alphanumeric characters by a
single hyphen, as performed by
`nonAlphanumeric.ReplaceAllLiteralString _ "-"`.  `collapseRuns` scans
outside a run; `afterRun` consumes the remainder of a non-alphanumeric run
whose single replacement hyphen has already been emitted. -/
def collapseRuns : List Char → List Char
  | [] => []
  | c :: rest =>
    if isServiceNameChar c then c :: collapseRuns rest
    else '-' :: afterRun rest

def afterRun : List Char → List Char
  | [] => []
  | c :: rest =>
    if isServiceNameChar c then c :: collapseRuns rest
    else afterRun rest

end

/-- Embedding of `NormalizeServiceName`: lowercase, then collapse runs of
non-alphanumerics to single hyphens.  `lower` abstracts the per-character
Unicode simple case mapping applied by `strings.ToLower` (the `unicode`
package is external to the repository). -/
def NormalizeServiceName (lower : Char → Char) (s : String) : String :=
  String.mk (collapseRuns (s.data.map lower))

/-- Fragment of the Unicode simple lowercase mapping: the ASCII mapping
together with U+212A KELVIN SIGN ↦ `k`.  `unicode.ToLower` agrees with this
function on every ASCII character and on U+212A (per the Unicode case
tables); it is used to instantiate `lower` at inputs built from exactly
those characters. -/
def goToLowerKelvin (c : Char) : Char :=
  if c = '\u212A' then 'k' else Char.toLower c

/-! ## convertPort (compose.go lines 175-237)

The protobuf enums `v1.Protocol` and `v1.Mode`.  Their protobuf zero values
are `ANY` and `HOST` respectively: `convertPort` constructs `&v1.Port{Target: ...}`
and the `ingress`-with-published branch `break`s out of the mode switch
without assigning `Mode`, and the repository's own test
(`TestConvertPort`, "Implied ingress mode, defined protocol, published equals
target") requires the resulting mode to be `HOST`. -/

inductive Protocol where
  | any | tcp | udp | http | http2 | grpc
deriving DecidableEq, Repr

inductive Mode where
  | host | ingress
deriving DecidableEq, Repr

/-- The strict internal port descriptor `v1.Port` (only the fields
`convertPort` touches). -/
structure v1Port where
  target : Nat
  protocol : Protocol
  mode : Mode
deriving DecidableEq, Repr

/-- The compose-side port spec `compose.ServicePortConfig` (only the fields
`convertPort` reads).  `target` is Go `uint32`. -/
structure ServicePortConfig where
  mode : String := ""
  hostIP : String := ""
  published : String := ""
  protocol : String := ""
  target : Nat := 0
deriving DecidableEq, Repr

/-- Protocol switch of `convertPort` (compose.go lines 194-209). -/
def parseProtocol (s : String) : Except String Protocol :=
  if s == "" then .ok .any
  else if s == "tcp" then .ok .tcp
  else if s == "udp" then .ok .udp
  else if s == "http" then .ok .http
  else if s == "http2" then .ok .http2
  else if s == "grpc" then .ok .grpc
  else .error ("port protocol not one of [tcp udp http http2 grpc]: " ++ s)

/-- Embedding of `convertPort`.  The returned `Bool` is true exactly when the
call emitted at least one warning (each warning in the Go code sets the
process-wide `HadWarnings` flag). -/
def convertPort (port : ServicePortConfig) : Except String (v1Port × Bool) :=
  if port.target < 1 || port.target > 32767 then
    .error ("port target must be an integer between 1 and 32767: " ++ toString port.target)
  else if port.hostIP != "" then
    .error "port host_ip is not supported"
  else if port.published != "" && port.published != toString port.target then
    .error ("port published must be empty or equal to target: " ++ port.published)
  else
    match parseProtocol port.protocol with
    | .error e => .error e
    | .ok proto =>
      -- pbPort := &v1.Port{Target: ...}: protobuf zero values ANY / HOST
      let pbPort : v1Port := { target := port.target, protocol := proto, mode := .host }
      if port.mode == "" then
        -- warning: "No port mode was specified; assuming 'host'", then fallthrough
        .ok ({ pbPort with mode := .host }, true)
      else if port.mode == "host" then
        .ok ({ pbPort with mode := .host }, false)
      else if port.mode == "ingress" then
        if port.published != "" then
          -- warning: published ports unsupported in ingress mode; Mode is left
          -- at its zero value (HOST) and the protocol is left unmodified
          .ok (pbPort, true)
        else if proto == .tcp || proto == .udp then
          -- warning: "TCP ingress is not supported; assuming HTTP"
          .ok ({ pbPort with mode := .ingress, protocol := .http }, true)
        else
          .ok ({ pbPort with mode := .ingress }, false)
      else
        .error ("port mode not one of [host ingress]: " ++ port.mode)

/-! ## File-system model for createTarball (compose.go lines 286-431)

A context directory is a list of `FSNode`s (the children of the build-context
root; the root itself is never archived, compose.go line 337).  Each directory
holds its children in the name-sorted order in which `filepath.WalkDir`
visits them.
File contents are byte strings.  `other` stands for the non-regular,
non-directory entries (devices, dangling links, ...): they get a header-only
archive entry and `os.Open` on them fails in the model. -/

/-- Per-entry file-system metadata, as surfaced by `fs.FileInfo`/`stat`:
besides the mode and modification time, on Unix `tar.FileInfoHeader` also
reads the access time, the change time and the looked-up owner/group names
into the header. -/
structure FileMeta where
  mode : Nat
  mtime : Int
  uid : Nat
  gid : Nat
  atime : Int
  ctime : Int
  uname : String
  gname : String
deriving DecidableEq, Repr

inductive FSNode where
  | file (name : String) (meta : FileMeta) (content : String)
  | dir (name : String) (meta : FileMeta) (children : List FSNode)
  | other (name : String) (meta : FileMeta)

def nodeName : FSNode → String
  | .file nm _ _ => nm
  | .dir nm _ _ => nm
  | .other nm _ => nm

/-- Type flag of a tar header, abstracting `tar.FileInfoHeader`'s mapping of
`fs.FileMode` to a tar type flag. -/
inductive EntryKind where
  | regular | directory | otherKind
deriving DecidableEq, Repr

/-- One archive entry: the tar header fields as written, plus the content
bytes that follow the header (empty for non-regular entries).  The header
carries the fields `createTarball` overrides (`Name`, `ModTime`, `Uid`,
`Gid`) and the ones `tar.FileInfoHeader` filled from the file system that
the code never clears (`Mode`, and on Unix `AccessTime`, `ChangeTime`,
`Uname`, `Gname`, which the auto-selected PAX format writes into the
stream).  The emitted archive byte stream is an injective serialization of
this entry list. -/
structure TarEntry where
  name : String
  mode : Nat
  mtime : Int
  uid : Nat
  gid : Nat
  atime : Int
  ctime : Int
  uname : String
  gname : String
  kind : EntryKind
  content : String
deriving DecidableEq, Repr

/-- Mutable state threaded through the `filepath.WalkDir` callback. -/
structure TarState where
  entries : List TarEntry
  foundDockerfile : Bool
  fileCount : Nat
deriving DecidableEq, Repr

/-! ### Path helpers (`filepath.Clean`, `filepath.Rel`, `filepath.Join`)

String splitting, joining and trimming are implemented structurally over
character lists (the semantics of `strings.Split`, `strings.Join` and
`strings.TrimSpace` for the separators the code uses). -/

/-- Split a character list at every occurrence of `sep`. -/
def splitChar (sep : Char) : List Char → List (List Char)
  | [] => [[]]
  | c :: rest =>
    match splitChar sep rest with
    | [] => [[]]
    | cur :: parts => if c = sep then [] :: cur :: parts else (c :: cur) :: parts

/-- Join path elements with the slash separator (`strings.Join(elems, "/")`). -/
def intercalateSlash : List String → String
  | [] => ""
  | [p] => p
  | p :: rest => p ++ "/" ++ intercalateSlash rest

def startsWithChar (c : Char) (s : String) : Bool :=
  match s.data with
  | [] => false
  | d :: _ => d == c

/-- ASCII whitespace, as trimmed by `strings.TrimSpace`. -/
def isSpaceChar (c : Char) : Bool :=
  c == ' ' || c == '\t' || c == '\n' || c == '\x0d'

def trimAscii (l : List Char) : List Char :=
  ((l.dropWhile isSpaceChar).reverse.dropWhile isSpaceChar).reverse

/-- Element processing of Go `filepath.Clean` (`path.Clean` on slash paths):
the accumulator is kept reversed. -/
def cleanCore (rooted : Bool) : List String → List String → List String
  | acc, [] => acc.reverse
  | acc, c :: rest =>
    if c == "" || c == "." then cleanCore rooted acc rest
    else if c == ".." then
      match acc with
      | [] => cleanCore rooted (if rooted then [] else [".."]) rest
      | top :: acc2 =>
        if top == ".." then cleanCore rooted (".." :: acc) rest
        else cleanCore rooted acc2 rest
    else cleanCore rooted (c :: acc) rest

def splitPath (p : String) : List String :=
  (splitChar '/' p.data).map String.mk

/-- Embedding of Go `filepath.Clean` for slash-separated paths. -/
def cleanPath (p : String) : String :=
  if p == "" then "."
  else
    let rooted := startsWithChar '/' p
    let out := intercalateSlash (cleanCore rooted [] (splitPath p))
    if rooted then "/" ++ out
    else if out == "" then "." else out

/-- Relative path of a child named `name` below the relative path `pre`
(`pre = ""` denotes the context root).  In the model the host separator and
the slash agree, so this is both `filepath.Rel root path` and its
`filepath.ToSlash` image. -/
def joinPath (pre name : String) : String :=
  if pre == "" then name else pre ++ "/" ++ name

/-! ### Ignore-file resolution (compose.go lines 286-323) -/

/-- Look a relative path up in a directory listing. -/
def lookupNode (nodes : List FSNode) : List String → Option FSNode
  | [] => none
  | [c] => nodes.find? (fun n => nodeName n == c)
  | c :: rest =>
    match nodes.find? (fun n => nodeName n == c) with
    | some (.dir _ _ ch) => lookupNode ch rest
    | _ => none

/-- Embedding of `tryReadIgnoreFile`: `none` when `os.Open` fails (no such
entry, or an unopenable special entry), `some (.ok content)` for a regular
file, and `some (.error ...)` when the open succeeds but reading the contents
fails (the path names a directory). -/
def tryReadIgnoreFile (root : List FSNode) (name : String) : Option (Except String String) :=
  match lookupNode root (splitPath name) with
  | some (.file _ _ content) => some (.ok content)
  | some (.dir _ _ _) => some (.error ("read " ++ name ++ ": is a directory"))
  | some (.other _ _) => none
  | none => none

/-- Ignore-file resolution of `createTarball` (compose.go lines 304-314):
returns the relative path bound to the `dockerignore` variable together with
the pattern-file content (or the read error). -/
def resolveIgnoreFile (root : List FSNode) (df : String) : String × Except String String :=
  match tryReadIgnoreFile root (df ++ ".dockerignore") with
  | some r => (df ++ ".dockerignore", r)
  | none =>
    match tryReadIgnoreFile root ".dockerignore" with
    | some r => (".dockerignore", r)
    | none => (".dockerignore", .ok defaultDockerIgnore)

/-- Embedding of `ignorefile.ReadAll`: split into lines, skip `#` comment
lines, trim and skip blank lines. -/
def readIgnorePatterns (content : String) : List String :=
  (splitChar '\n' content.data).filterMap (fun line =>
    match line with
    | '#' :: _ => none
    | _ =>
      let p := trimAscii line
      if p.isEmpty then none else some (String.mk p))

/-- Normalization of the `dockerfile` argument (compose.go lines 298-302). -/
def resolveDf (dockerfile : String) : String :=
  if dockerfile == "" then "Dockerfile" else cleanPath dockerfile

/-! ### The directory walk (compose.go lines 331-411)

`pm` abstracts `patternmatcher.PatternMatcher.MatchesOrParentMatches` (the
library is external to the repository), `measure` abstracts `buf.Len()`: the
number of compressed bytes the gzip writer has flushed to the output buffer
after the listed entries (headers and contents) have been written to it. -/

def sizeErrMsg : String := "build context is too large; this beta version is limited to 10MiB"

/-- The archive entry written for one included file-system entry: the header
produced by `tar.FileInfoHeader` with `ModTime` forced to `sourceDateEpoch`,
`Uid`/`Gid` zeroed and `Name` set to the slashed relative path (compose.go
lines 376-389), plus the copied content for regular files.  The remaining
header fields — mode, access time, change time, owner and group names — are
left exactly as `tar.FileInfoHeader` read them from the file system. -/
def mkEntry (rel : String) (meta : FileMeta) (kind : EntryKind) (content : String) : TarEntry :=
  { name := rel, mode := meta.mode, mtime := sourceDateEpoch, uid := 0, gid := 0,
    atime := meta.atime, ctime := meta.ctime, uname := meta.uname, gname := meta.gname,
    kind := kind, content := content }

mutual

/-- One invocation of the `WalkDir` callback on the entry `n` whose parent
directory has relative path `pre`, followed (for an included directory) by the
walk of its children. -/
def walkNode (pm : String → Bool) (df di : String) (measure : List TarEntry → Nat)
    (pre : String) (n : FSNode) (st : TarState) : Except String TarState :=
  let rel := joinPath pre (nodeName n)
  -- we need the Dockerfile, even if it is in the .dockerignore file
  let isDf := !st.foundDockerfile && rel == df
  let st := if isDf then { st with foundDockerfile := true } else st
  if !isDf && !(rel == di) && pm rel then
    -- ignored: a directory is pruned (filepath.SkipDir), anything else skipped
    .ok st
  else
    match n with
    | .file _ meta content =>
      let st1 : TarState :=
        { st with
          entries := st.entries ++ [mkEntry rel meta .regular content],
          fileCount := st.fileCount + 1 }
      if measure st1.entries > 10 * MiB then .error sizeErrMsg else .ok st1
    | .dir _ meta children =>
      walkList pm df di measure rel children
        { st with entries := st.entries ++ [mkEntry rel meta .directory ""] }
    | .other _ meta =>
      .ok { st with entries := st.entries ++ [mkEntry rel meta .otherKind ""] }

/-- Walk of a directory listing in its (sorted) order. -/
def walkList (pm : String → Bool) (df di : String) (measure : List TarEntry → Nat)
    (pre : String) (l : List FSNode) (st : TarState) : Except String TarState :=
  match l with
  | [] => .ok st
  | n :: rest =>
    match walkNode pm df di measure pre n st with
    | .error e => .error e
    | .ok st1 => walkList pm df di measure pre rest st1

end

/-- Embedding of `createTarball`.  `compile` abstracts `patternmatcher.New`
over the parsed pattern lines; the result is the entry list of the produced
archive (of which the gzip-compressed tar stream is an injective
serialization). -/
def createTarball (compile : List String → Except String (String → Bool))
    (measure : List TarEntry → Nat) (root : List FSNode) (dockerfile : String) :
    Except String (List TarEntry) :=
  let df := resolveDf dockerfile
  match resolveIgnoreFile root df with
  | (_, .error e) => .error e
  | (di, .ok content) =>
    match compile (readIgnorePatterns content) with
    | .error e => .error e
    | .ok pm =>
      match walkList pm df di measure "" root { entries := [], foundDockerfile := false, fileCount := 0 } with
      | .error e => .error e
      | .ok st =>
        if st.foundDockerfile then .ok st.entries
        else .error ("the specified dockerfile could not be read: \x22" ++ df ++ "\x22")

/-- Digest computation of `getRemoteBuildContext` (compose.go lines 159-165)
with `force == false`: `enc` abstracts the composition
base64-standard-encoding ∘ SHA-256 ∘ gzip ∘ tar-serialization applied to the
archive entries (`sha256.Sum256(buffer.Bytes())` hashes the compressed
bytes held in `buffer`). -/
def remoteDigest (enc : List TarEntry → String)
    (compile : List String → Except String (String → Bool))
    (measure : List TarEntry → Nat) (root : List FSNode) (dockerfile : String) :
    Except String String :=
  match createTarball compile measure root dockerfile with
  | .error e => .error e
  | .ok es => .ok ("sha256-" ++ enc es)

/-! ### Auxiliary notions used by the theorems -/

/-- Forget exactly the file-system metadata that packaging normalizes away:
modification time, owner id and group id.  Mode, access time, change time
and owner/group names are kept, because `createTarball` writes them into the
archive unmodified. -/
def eraseMeta (m : FileMeta) : FileMeta :=
  { mode := m.mode, mtime := 0, uid := 0, gid := 0,
    atime := m.atime, ctime := m.ctime, uname := m.uname, gname := m.gname }

mutual

def eraseNode : FSNode → FSNode
  | .file nm m c => .file nm (eraseMeta m) c
  | .dir nm m ch => .dir nm (eraseMeta m) (eraseList ch)
  | .other nm m => .other nm (eraseMeta m)

def eraseList : List FSNode → List FSNode
  | [] => []
  | n :: rest => eraseNode n :: eraseList rest

end

mutual

/-- All relative paths of the subtree rooted at `n` (the node first, then its
descendants in walk order). -/
def nodePaths (pre : String) (n : FSNode) : List String :=
  match n with
  | .dir _ _ children => joinPath pre (nodeName n) :: listPaths (joinPath pre (nodeName n)) children
  | _ => [joinPath pre (nodeName n)]

def listPaths (pre : String) : List FSNode → List String
  | [] => []
  | n :: rest => nodePaths pre n ++ listPaths pre rest

end

mutual

/-- Modelled from the spec: the archive must contain "exactly the entries not
matched by the ignore matcher plus the declared Dockerfile and the resolved
ignore file (these two are always included even when a pattern matches
them), in lexical path order, and a matched directory's entire subtree is
skipped".  This is a stateless selection over the tree, written from those
words; the refinement theorem for C3 compares the walk's output with it. -/
def specSelNode (pm : String → Bool) (df di : String) (pre : String) (n : FSNode) : List TarEntry :=
  let rel := joinPath pre (nodeName n)
  if rel == df || rel == di || !pm rel then
    match n with
    | .file _ meta content => [mkEntry rel meta .regular content]
    | .dir _ meta children =>
      mkEntry rel meta .directory "" :: specSelList pm df di rel children
    | .other _ meta => [mkEntry rel meta .otherKind ""]
  else []

def specSelList (pm : String → Bool) (df di : String) (pre : String) : List FSNode → List TarEntry
  | [] => []
  | n :: rest => specSelNode pm df di pre n ++ specSelList pm df di pre rest

end

/-- File-system name sanity: an entry name is nonempty and does not start
with the path separator. -/
def nameOk (s : String) : Bool :=
  match s.data with
  | [] => false
  | c :: _ => decide (c ≠ '/')

mutual

def nodeNamesOk : FSNode → Bool
  | .dir nm _ ch => nameOk nm && listNamesOk ch
  | .file nm _ _ => nameOk nm
  | .other nm _ => nameOk nm

def listNamesOk : List FSNode → Bool
  | [] => true
  | n :: rest => nodeNamesOk n && listNamesOk rest

end

/-! ### Concrete instantiations used by witnesses and counterexamples -/

/-- A matcher that matches exactly the named paths. -/
def compileLiteral : List String → Except String (String → Bool) :=
  fun pats => .ok (fun p => pats.contains p)

/-- A size measure under which nothing ever exceeds the ceiling. -/
def measureZero : List TarEntry → Nat := fun _ => 0

/-- A size measure counting the content bytes written so far (an admissible
abstraction of the compressed output length). -/
def measureContent : List TarEntry → Nat :=
  fun es => es.foldl (fun acc e => acc + e.content.length) 0

/-- Example metadata. -/
def meta644 : FileMeta :=
  { mode := 420, mtime := 1700000000, uid := 501, gid := 20,
    atime := 1700000001, ctime := 1700000002, uname := "user", gname := "staff" }

def meta755 : FileMeta :=
  { mode := 493, mtime := 1700000000, uid := 501, gid := 20,
    atime := 1700000001, ctime := 1700000002, uname := "user", gname := "staff" }

/-- Metadata pairs for the reproducibility theorems: `metaRun2` differs from
`metaRun1` only in the normalized fields (mtime, uid, gid); `metaAtime`
differs from `metaRun1` only in the access time, which packaging does not
normalize. -/
def metaRun1 : FileMeta :=
  { mode := 420, mtime := 1, uid := 2, gid := 3,
    atime := 50, ctime := 60, uname := "user", gname := "staff" }

def metaRun2 : FileMeta :=
  { mode := 420, mtime := 99, uid := 0, gid := 55,
    atime := 50, ctime := 60, uname := "user", gname := "staff" }

def metaAtime : FileMeta :=
  { mode := 420, mtime := 1, uid := 2, gid := 3,
    atime := 51, ctime := 60, uname := "user", gname := "staff" }

/-! ## Derived branch equations for the walk -/

theorem walkNode_file (pm : String → Bool) (df di : String) (measure : List TarEntry → Nat)
    (pre nm : String) (meta : FileMeta) (content : String) (st : TarState) :
    walkNode pm df di measure pre (.file nm meta content) st =
      (let rel := joinPath pre nm
       let stA := if !st.foundDockerfile && rel == df then { st with foundDockerfile := true } else st
       if !(!st.foundDockerfile && rel == df) && !(rel == di) && pm rel then .ok stA
       else
         let st1 : TarState :=
           { entries := stA.entries ++ [mkEntry rel meta .regular content],
             foundDockerfile := stA.foundDockerfile,
             fileCount := stA.fileCount + 1 }
         if measure st1.entries > 10 * MiB then .error sizeErrMsg else .ok st1) := by
  rw [walkNode.eq_def]
  rfl

theorem walkNode_dir (pm : String → Bool) (df di : String) (measure : List TarEntry → Nat)
    (pre nm : String) (meta : FileMeta) (children : List FSNode) (st : TarState) :
    walkNode pm df di measure pre (.dir nm meta children) st =
      (let rel := joinPath pre nm
       let stA := if !st.foundDockerfile && rel == df then { st with foundDockerfile := true } else st
       if !(!st.foundDockerfile && rel == df) && !(rel == di) && pm rel then .ok stA
       else
         walkList pm df di measure rel children
           { entries := stA.entries ++ [mkEntry rel meta .directory ""],
             foundDockerfile := stA.foundDockerfile,
             fileCount := stA.fileCount }) := by
  rw [walkNode.eq_def]
  rfl

theorem walkNode_other (pm : String → Bool) (df di : String) (measure : List TarEntry → Nat)
    (pre nm : String) (meta : FileMeta) (st : TarState) :
    walkNode pm df di measure pre (.other nm meta) st =
      (let rel := joinPath pre nm
       let stA := if !st.foundDockerfile && rel == df then { st with foundDockerfile := true } else st
       if !(!st.foundDockerfile && rel == df) && !(rel == di) && pm rel then .ok stA
       else .ok { entries := stA.entries ++ [mkEntry rel meta .otherKind ""],
                  foundDockerfile := stA.foundDockerfile,
                  fileCount := stA.fileCount }) := by
  rw [walkNode.eq_def]
  rfl

theorem walkList_nil (pm : String → Bool) (df di : String) (measure : List TarEntry → Nat)
    (pre : String) (st : TarState) :
    walkList pm df di measure pre [] st = .ok st := by
  rw [walkList.eq_def]

theorem walkList_cons (pm : String → Bool) (df di : String) (measure : List TarEntry → Nat)
    (pre : String) (n : FSNode) (rest : List FSNode) (st : TarState) :
    walkList pm df di measure pre (n :: rest) st =
      (match walkNode pm df di measure pre n st with
       | .error e => .error e
       | .ok st1 => walkList pm df di measure pre rest st1) := by
  rw [walkList.eq_def]

/-! ## The only walk-time failure is the size-limit error -/

mutual

theorem walkNode_error_size (pm : String → Bool) (df di : String)
    (measure : List TarEntry → Nat) (pre : String) (n : FSNode) (st : TarState)
    (e : String) (h : walkNode pm df di measure pre n st = .error e) : e = sizeErrMsg := by
  cases n with
  | file nm meta content =>
    rw [walkNode_file] at h
    dsimp only at h
    split at h
    · exact absurd h (by simp)
    · split at h <;> split at h <;>
        first
        | (injection h with h2; exact h2.symm)
        | exact absurd h (by simp)
  | dir nm meta children =>
    rw [walkNode_dir] at h
    dsimp only at h
    split at h
    · exact absurd h (by simp)
    · exact walkList_error_size pm df di measure _ children _ e h
  | other nm meta =>
    rw [walkNode_other] at h
    dsimp only at h
    split at h <;> exact absurd h (by simp)

theorem walkList_error_size (pm : String → Bool) (df di : String)
    (measure : List TarEntry → Nat) (pre : String) (l : List FSNode) (st : TarState)
    (e : String) (h : walkList pm df di measure pre l st = .error e) : e = sizeErrMsg := by
  cases l with
  | nil =>
    rw [walkList_nil] at h
    exact absurd h (by simp)
  | cons n rest =>
    rw [walkList_cons] at h
    split at h
    · next e1 heq =>
      injection h with h2
      exact h2 ▸ walkNode_error_size pm df di measure pre n st e1 heq
    · next st1 heq =>
      exact walkList_error_size pm df di measure pre rest st1 e h

end

/-! ## The walk refines the spec-side selection -/


/-- Boolean shape of the include decision: whenever the walk's skip test
fails, the spec-side inclusion condition holds. -/
theorem includeCond (found relDf relDi pmv : Bool)
    (hskip : ¬((!(!found && relDf)) && (!relDi) && pmv) = true) :
    (relDf || relDi || !pmv) = true := by
  cases relDf <;> cases relDi <;> cases pmv <;> cases found <;> simp_all

mutual

theorem walkNode_spec (pm : String → Bool) (df di : String) (measure : List TarEntry → Nat)
    (pre : String) (n : FSNode) (st st' : TarState)
    (h : walkNode pm df di measure pre n st = .ok st')
    (h1 : st.foundDockerfile = true → ∀ p ∈ nodePaths pre n, p ≠ df)
    (h2 : (nodePaths pre n).count df ≤ 1) :
    st'.entries = st.entries ++ specSelNode pm df di pre n ∧
    (st'.foundDockerfile = true → (st.foundDockerfile = true ∨ df ∈ nodePaths pre n)) := by
  cases n with
  | file nm meta content =>
    rw [walkNode_file] at h
    dsimp only at h
    by_cases hdfb : (!st.foundDockerfile && (joinPath pre nm == df)) = true
    · rw [if_pos hdfb, if_neg (by simp [hdfb])] at h
      split at h
      · cases h
      · cases h
        have hdf : joinPath pre nm = df := by
          have h3 := hdfb
          simp only [Bool.and_eq_true, beq_iff_eq] at h3
          exact h3.2
        refine ⟨?_, fun _ => Or.inr (by simp [nodePaths, nodeName, hdf])⟩
        simp [specSelNode, nodeName, hdf]
    · rw [if_neg hdfb] at h
      have hreldf : (joinPath pre nm == df) = false := by
        cases hx : (joinPath pre nm == df)
        · rfl
        · cases hf : st.foundDockerfile
          · rw [Bool.not_eq_true] at hdfb
            rw [hf, hx] at hdfb
            simp at hdfb
          · exact absurd (eq_of_beq hx) (h1 hf _ (by simp [nodePaths, nodeName]))
      split at h
      · next hskip =>
        simp only [Bool.and_eq_true, Bool.not_eq_true'] at hskip
        cases h
        refine ⟨?_, fun hf => Or.inl hf⟩
        simp [specSelNode, nodeName, hreldf, hskip.1.2, hskip.2]
      · next hskip =>
        have hcond := includeCond st.foundDockerfile (joinPath pre nm == df)
          (joinPath pre nm == di) (pm (joinPath pre nm)) hskip
        split at h
        · cases h
        · cases h
          refine ⟨?_, fun hf => Or.inl hf⟩
          simp [specSelNode, nodeName, hcond]
  | other nm meta =>
    rw [walkNode_other] at h
    dsimp only at h
    by_cases hdfb : (!st.foundDockerfile && (joinPath pre nm == df)) = true
    · rw [if_pos hdfb, if_neg (by simp [hdfb])] at h
      cases h
      have hdf : joinPath pre nm = df := by
        have h3 := hdfb
        simp only [Bool.and_eq_true, beq_iff_eq] at h3
        exact h3.2
      refine ⟨?_, fun _ => Or.inr (by simp [nodePaths, nodeName, hdf])⟩
      simp [specSelNode, nodeName, hdf]
    · rw [if_neg hdfb] at h
      have hreldf : (joinPath pre nm == df) = false := by
        cases hx : (joinPath pre nm == df)
        · rfl
        · cases hf : st.foundDockerfile
          · rw [Bool.not_eq_true] at hdfb
            rw [hf, hx] at hdfb
            simp at hdfb
          · exact absurd (eq_of_beq hx) (h1 hf _ (by simp [nodePaths, nodeName]))
      split at h
      · next hskip =>
        simp only [Bool.and_eq_true, Bool.not_eq_true'] at hskip
        cases h
        refine ⟨?_, fun hf => Or.inl hf⟩
        simp [specSelNode, nodeName, hreldf, hskip.1.2, hskip.2]
      · next hskip =>
        have hcond := includeCond st.foundDockerfile (joinPath pre nm == df)
          (joinPath pre nm == di) (pm (joinPath pre nm)) hskip
        cases h
        refine ⟨?_, fun hf => Or.inl hf⟩
        simp [specSelNode, nodeName, hcond]
  | dir nm meta children =>
    rw [walkNode_dir] at h
    dsimp only at h
    by_cases hdfb : (!st.foundDockerfile && (joinPath pre nm == df)) = true
    · rw [if_pos hdfb, if_neg (by simp [hdfb])] at h
      have hdf : joinPath pre nm = df := by
        have h3 := hdfb
        simp only [Bool.and_eq_true, beq_iff_eq] at h3
        exact h3.2
      have hcnt : (listPaths (joinPath pre nm) children).count df = 0 := by
        have h3 := h2
        simp only [nodePaths, nodeName, List.count_cons] at h3
        rw [if_pos (by simp [hdf])] at h3
        omega
      have hnotin : df ∉ listPaths (joinPath pre nm) children := List.count_eq_zero.mp hcnt
      obtain ⟨he, _⟩ := walkList_spec pm df di measure (joinPath pre nm) children _ st' h
        (fun _ p hp => fun hpe => hnotin (hpe ▸ hp))
        (by rw [hcnt]; omega)
      refine ⟨?_, fun _ => Or.inr (by simp [nodePaths, nodeName, hdf])⟩
      rw [he]
      simp [specSelNode, nodeName, hdf]
    · rw [if_neg hdfb] at h
      have hreldf : (joinPath pre nm == df) = false := by
        cases hx : (joinPath pre nm == df)
        · rfl
        · cases hf : st.foundDockerfile
          · rw [Bool.not_eq_true] at hdfb
            rw [hf, hx] at hdfb
            simp at hdfb
          · exact absurd (eq_of_beq hx) (h1 hf _ (by simp [nodePaths, nodeName]))
      split at h
      · next hskip =>
        simp only [Bool.and_eq_true, Bool.not_eq_true'] at hskip
        cases h
        refine ⟨?_, fun hf => Or.inl hf⟩
        simp [specSelNode, nodeName, hreldf, hskip.1.2, hskip.2]
      · next hskip =>
        have hcond := includeCond st.foundDockerfile (joinPath pre nm == df)
          (joinPath pre nm == di) (pm (joinPath pre nm)) hskip
        have h1c : ∀ p ∈ listPaths (joinPath pre nm) children, p ∈ nodePaths pre (.dir nm meta children) := by
          intro p hp
          simp [nodePaths, nodeName]
          exact Or.inr hp
        have h2c : (listPaths (joinPath pre nm) children).count df ≤ 1 := by
          simp only [nodePaths, nodeName, List.count_cons] at h2
          omega
        obtain ⟨he, hf⟩ := walkList_spec pm df di measure (joinPath pre nm) children _ st' h
          (fun hfd p hp => h1 hfd p (h1c p hp))
          h2c
        constructor
        · rw [he]
          simp [specSelNode, nodeName, hcond]
        · intro hfd
          rcases hf hfd with ha | ha
          · exact Or.inl ha
          · exact Or.inr (by simp [nodePaths, nodeName]; exact Or.inr ha)
  termination_by sizeOf n

theorem walkList_spec (pm : String → Bool) (df di : String) (measure : List TarEntry → Nat)
    (pre : String) (l : List FSNode) (st st' : TarState)
    (h : walkList pm df di measure pre l st = .ok st')
    (h1 : st.foundDockerfile = true → ∀ p ∈ listPaths pre l, p ≠ df)
    (h2 : (listPaths pre l).count df ≤ 1) :
    st'.entries = st.entries ++ specSelList pm df di pre l ∧
    (st'.foundDockerfile = true → (st.foundDockerfile = true ∨ df ∈ listPaths pre l)) := by
  cases l with
  | nil =>
    rw [walkList_nil] at h
    cases h
    refine ⟨by simp [specSelList], fun hf => Or.inl hf⟩
  | cons n rest =>
    rw [walkList_cons] at h
    split at h
    · cases h
    · next st1 heq =>
      have h1n : st.foundDockerfile = true → ∀ p ∈ nodePaths pre n, p ≠ df := by
        intro hfd p hp
        exact h1 hfd p (by simp [listPaths]; exact Or.inl hp)
      have h2n : (nodePaths pre n).count df ≤ 1 := by
        simp only [listPaths, List.count_append] at h2
        omega
      obtain ⟨he1, hf1⟩ := walkNode_spec pm df di measure pre n st st1 heq h1n h2n
      have h1r : st1.foundDockerfile = true → ∀ p ∈ listPaths pre rest, p ≠ df := by
        intro hfd p hp
        rcases hf1 hfd with ha | ha
        · exact h1 ha p (by simp [listPaths]; exact Or.inr hp)
        · intro hpe
          have hpos : (nodePaths pre n).count df ≠ 0 := fun h0 => (List.count_eq_zero.mp h0) ha
          have hpos2 : (listPaths pre rest).count df ≠ 0 :=
            fun h0 => (List.count_eq_zero.mp h0) (hpe ▸ hp)
          simp only [listPaths, List.count_append] at h2
          omega
      have h2r : (listPaths pre rest).count df ≤ 1 := by
        simp only [listPaths, List.count_append] at h2
        omega
      obtain ⟨he2, hf2⟩ := walkList_spec pm df di measure pre rest st1 st' h h1r h2r
      constructor
      · rw [he2, he1]
        simp [specSelList, List.append_assoc]
      · intro hfd
        rcases hf2 hfd with ha | ha
        · rcases hf1 ha with hb | hb
          · exact Or.inl hb
          · exact Or.inr (by simp [listPaths]; exact Or.inl hb)
        · exact Or.inr (by simp [listPaths]; exact Or.inr ha)
  termination_by sizeOf l

end


/-! ## Selection is a sub-sequence of the lexical enumeration -/


mutual

theorem specSelNode_names_sublist (pm : String → Bool) (df di : String) (pre : String) (n : FSNode) :
    List.Sublist ((specSelNode pm df di pre n).map TarEntry.name) (nodePaths pre n) := by
  cases n with
  | file nm meta content =>
    simp only [specSelNode, nodePaths, nodeName]
    split
    · simp [mkEntry]
    · simp
  | dir nm meta children =>
    simp only [specSelNode, nodePaths, nodeName]
    split
    · simp only [List.map_cons, mkEntry]
      exact List.Sublist.cons₂ _ (specSelList_names_sublist pm df di (joinPath pre nm) children)
    · simp
  | other nm meta =>
    simp only [specSelNode, nodePaths, nodeName]
    split
    · simp [mkEntry]
    · simp

theorem specSelList_names_sublist (pm : String → Bool) (df di : String) (pre : String) (l : List FSNode) :
    List.Sublist ((specSelList pm df di pre l).map TarEntry.name) (listPaths pre l) := by
  cases l with
  | nil => simp [specSelList, listPaths]
  | cons n rest =>
    rw [specSelList, listPaths]
    rw [List.map_append]
    exact List.Sublist.append (specSelNode_names_sublist pm df di pre n)
      (specSelList_names_sublist pm df di pre rest)

end

/-- Unfolding of `createTarball` past ignore-file resolution and pattern
compilation. -/
theorem createTarball_walk (compile : List String → Except String (String → Bool))
    (measure : List TarEntry → Nat) (root : List FSNode) (dockerfile : String)
    (di : String) (content : String) (pm : String → Bool)
    (hres : resolveIgnoreFile root (resolveDf dockerfile) = (di, .ok content))
    (hcomp : compile (readIgnorePatterns content) = .ok pm) :
    createTarball compile measure root dockerfile =
      (match walkList pm (resolveDf dockerfile) di measure "" root
          { entries := [], foundDockerfile := false, fileCount := 0 } with
       | .error e => .error e
       | .ok st =>
         if st.foundDockerfile then .ok st.entries
         else .error ("the specified dockerfile could not be read: \x22" ++ resolveDf dockerfile ++ "\x22")) := by
  rw [createTarball.eq_def]
  dsimp only
  rw [hres]
  dsimp only
  rw [hcomp]


/-! ## Claim C3 and claim C5 -/


/-- C3: for every context directory, on success the archive contains exactly
the entries selected by the spec-side rule (entries not matched by the ignore
matcher, plus the declared Dockerfile and the resolved ignore file, which are
included even when a pattern matches them, with a matched directory's whole
subtree skipped), and the entry names form a sub-sequence of the walk's
lexical enumeration of the tree, i.e. they appear in lexical path order. -/
theorem c3_archive_entries_exact
    (compile : List String → Except String (String → Bool))
    (measure : List TarEntry → Nat) (root : List FSNode) (dockerfile : String)
    (di : String) (content : String) (pm : String → Bool) (es : List TarEntry)
    (hres : resolveIgnoreFile root (resolveDf dockerfile) = (di, .ok content))
    (hcomp : compile (readIgnorePatterns content) = .ok pm)
    (huniq : (listPaths "" root).count (resolveDf dockerfile) ≤ 1)
    (hok : createTarball compile measure root dockerfile = .ok es) :
    es = specSelList pm (resolveDf dockerfile) di "" root ∧
    List.Sublist (es.map TarEntry.name) (listPaths "" root) := by
  rw [createTarball_walk compile measure root dockerfile di content pm hres hcomp] at hok
  cases hw : walkList pm (resolveDf dockerfile) di measure "" root
      { entries := [], foundDockerfile := false, fileCount := 0 } with
  | error e =>
    rw [hw] at hok
    exact absurd hok (by simp)
  | ok st =>
    rw [hw] at hok
    dsimp only at hok
    obtain ⟨he, _⟩ := walkList_spec pm (resolveDf dockerfile) di measure "" root _ st hw
      (by intro hf; cases hf) huniq
    by_cases hf : st.foundDockerfile = true
    · rw [if_pos hf] at hok
      injection hok with h2
      subst h2
      refine ⟨by simpa using he, ?_⟩
      rw [he]
      simpa using specSelList_names_sublist pm (resolveDf dockerfile) di "" root
    · rw [if_neg hf] at hok
      exact absurd hok (by simp)

set_option maxRecDepth 40000 in
/-- C3 witness: a context with a Dockerfile, a `.dockerignore` listing one
file, that file, and one kept file. -/
theorem c3_witness :
    ((resolveIgnoreFile
        [FSNode.file ".dockerignore" meta644 "ignored.txt\n",
         FSNode.file "Dockerfile" meta644 "FROM scratch\n",
         FSNode.file "ignored.txt" meta644 "secret\n",
         FSNode.file "keep.txt" meta644 "keep\n"] (resolveDf "") =
      (".dockerignore", .ok "ignored.txt\n")) ∧
     (createTarball compileLiteral measureZero
        [FSNode.file ".dockerignore" meta644 "ignored.txt\n",
         FSNode.file "Dockerfile" meta644 "FROM scratch\n",
         FSNode.file "ignored.txt" meta644 "secret\n",
         FSNode.file "keep.txt" meta644 "keep\n"] "" =
      .ok [mkEntry ".dockerignore" meta644 .regular "ignored.txt\n",
           mkEntry "Dockerfile" meta644 .regular "FROM scratch\n",
           mkEntry "keep.txt" meta644 .regular "keep\n"])) ∧
    ([mkEntry ".dockerignore" meta644 .regular "ignored.txt\n",
      mkEntry "Dockerfile" meta644 .regular "FROM scratch\n",
      mkEntry "keep.txt" meta644 .regular "keep\n"] =
      specSelList (fun p => (readIgnorePatterns "ignored.txt\n").contains p)
        (resolveDf "") ".dockerignore" ""
        [FSNode.file ".dockerignore" meta644 "ignored.txt\n",
         FSNode.file "Dockerfile" meta644 "FROM scratch\n",
         FSNode.file "ignored.txt" meta644 "secret\n",
         FSNode.file "keep.txt" meta644 "keep\n"] ∧
     List.Sublist
       (([mkEntry ".dockerignore" meta644 .regular "ignored.txt\n",
          mkEntry "Dockerfile" meta644 .regular "FROM scratch\n",
          mkEntry "keep.txt" meta644 .regular "keep\n"].map TarEntry.name))
       (listPaths ""
         [FSNode.file ".dockerignore" meta644 "ignored.txt\n",
          FSNode.file "Dockerfile" meta644 "FROM scratch\n",
          FSNode.file "ignored.txt" meta644 "secret\n",
          FSNode.file "keep.txt" meta644 "keep\n"])) :=
  ⟨⟨by decide, by decide⟩,
   c3_archive_entries_exact compileLiteral measureZero
     [FSNode.file ".dockerignore" meta644 "ignored.txt\n",
      FSNode.file "Dockerfile" meta644 "FROM scratch\n",
      FSNode.file "ignored.txt" meta644 "secret\n",
      FSNode.file "keep.txt" meta644 "keep\n"] ""
     ".dockerignore" "ignored.txt\n"
     (fun p => (readIgnorePatterns "ignored.txt\n").contains p) _
     (by decide) rfl (by decide) (by decide)⟩

/-- C5: when the walk completes without error but the declared Dockerfile was
never encountered, `createTarball` fails with the dockerfile-not-found error
(and, the result being an `error`, returns no archive). -/
theorem c5_dockerfile_not_found
    (compile : List String → Except String (String → Bool))
    (measure : List TarEntry → Nat) (root : List FSNode) (dockerfile : String)
    (di : String) (content : String) (pm : String → Bool) (st : TarState)
    (hres : resolveIgnoreFile root (resolveDf dockerfile) = (di, .ok content))
    (hcomp : compile (readIgnorePatterns content) = .ok pm)
    (hwalk : walkList pm (resolveDf dockerfile) di measure "" root
      { entries := [], foundDockerfile := false, fileCount := 0 } = .ok st)
    (hnf : st.foundDockerfile = false) :
    createTarball compile measure root dockerfile =
      .error ("the specified dockerfile could not be read: \x22" ++ resolveDf dockerfile ++ "\x22") := by
  rw [createTarball_walk compile measure root dockerfile di content pm hres hcomp, hwalk]
  simp [hnf]

set_option maxRecDepth 400000 in
/-- C5 witness: a context without the default Dockerfile. -/
theorem c5_witness :
    ((resolveIgnoreFile [FSNode.file "main.go" meta644 "package main\n"] (resolveDf "") =
        (".dockerignore", .ok defaultDockerIgnore)) ∧
     (walkList (fun p => (readIgnorePatterns defaultDockerIgnore).contains p)
        (resolveDf "") ".dockerignore" measureZero ""
        [FSNode.file "main.go" meta644 "package main\n"]
        { entries := [], foundDockerfile := false, fileCount := 0 } =
      .ok { entries := [mkEntry "main.go" meta644 .regular "package main\n"],
            foundDockerfile := false, fileCount := 1 })) ∧
    createTarball compileLiteral measureZero [FSNode.file "main.go" meta644 "package main\n"] "" =
      .error ("the specified dockerfile could not be read: \x22" ++ resolveDf "" ++ "\x22") :=
  ⟨⟨by decide, by decide⟩,
   c5_dockerfile_not_found compileLiteral measureZero
     [FSNode.file "main.go" meta644 "package main\n"] "" ".dockerignore" defaultDockerIgnore
     (fun p => (readIgnorePatterns defaultDockerIgnore).contains p)
     { entries := [mkEntry "main.go" meta644 .regular "package main\n"],
       foundDockerfile := false, fileCount := 1 }
     (by decide) rfl (by decide) rfl⟩


/-! ## Claim C4 -/


/-- The cumulative-size checkpoints of a state: after each regular-file entry,
the tracked output size was within the ceiling. -/
def checkOK (measure : List TarEntry → Nat) (es : List TarEntry) : Prop :=
  ∀ k (hk : k < es.length), (es.get ⟨k, hk⟩).kind = .regular →
    measure (es.take (k + 1)) ≤ 10 * MiB

theorem stAEntries (c : Prop) [Decidable c] (st : TarState) :
    ((if c then { st with foundDockerfile := true } else st) : TarState).entries = st.entries := by
  split <;> rfl

theorem checkOK_append (measure : List TarEntry → Nat) (es : List TarEntry) (e : TarEntry)
    (hP : checkOK measure es)
    (he : e.kind = .regular → measure (es ++ [e]) ≤ 10 * MiB) :
    checkOK measure (es ++ [e]) := by
  intro k hk hkind
  by_cases hlt : k < es.length
  · rw [List.get_eq_getElem, List.getElem_append_left hlt] at hkind
    have h0 : k + 1 - es.length = 0 := by omega
    rw [List.take_append_eq_append_take, h0, List.take_zero, List.append_nil]
    exact hP k hlt (by rw [List.get_eq_getElem]; exact hkind)
  · have hkeq : k = es.length := by
      simp only [List.length_append, List.length_singleton] at hk
      omega
    rw [List.get_eq_getElem, List.getElem_concat_length _ _ _ hkeq] at hkind
    have hall : (es ++ [e]).take (k + 1) = es ++ [e] := by
      have h2 : (es ++ [e]).length = k + 1 := by simp [hkeq]
      rw [← h2, List.take_length]
    rw [hall]
    exact he hkind

mutual

theorem walkNode_check (pm : String → Bool) (df di : String) (measure : List TarEntry → Nat)
    (pre : String) (n : FSNode) (st st2 : TarState)
    (h : walkNode pm df di measure pre n st = .ok st2)
    (hP : checkOK measure st.entries) : checkOK measure st2.entries := by
  cases n with
  | file nm meta content =>
    rw [walkNode_file] at h
    dsimp only at h
    by_cases hdfb : (!st.foundDockerfile && (joinPath pre nm == df)) = true <;>
      [rw [if_pos hdfb] at h; rw [if_neg hdfb] at h] <;>
    · split at h
      · cases h
        exact hP
      · split at h
        · cases h
        · next hm =>
          cases h
          try dsimp only
          try dsimp only at hm
          exact checkOK_append measure st.entries _ hP (fun _ => by omega)
  | dir nm meta children =>
    rw [walkNode_dir] at h
    dsimp only at h
    by_cases hdfb : (!st.foundDockerfile && (joinPath pre nm == df)) = true <;>
      [rw [if_pos hdfb] at h; rw [if_neg hdfb] at h] <;>
    · split at h
      · cases h
        exact hP
      · refine walkList_check pm df di measure _ children _ st2 h ?_
        try dsimp only
        refine checkOK_append measure st.entries _ hP (fun hkind => ?_)
        simp [mkEntry] at hkind
  | other nm meta =>
    rw [walkNode_other] at h
    dsimp only at h
    by_cases hdfb : (!st.foundDockerfile && (joinPath pre nm == df)) = true <;>
      [rw [if_pos hdfb] at h; rw [if_neg hdfb] at h] <;>
    · split at h
      · cases h
        exact hP
      · cases h
        try dsimp only
        refine checkOK_append measure st.entries _ hP (fun hkind => ?_)
        simp [mkEntry] at hkind

theorem walkList_check (pm : String → Bool) (df di : String) (measure : List TarEntry → Nat)
    (pre : String) (l : List FSNode) (st st2 : TarState)
    (h : walkList pm df di measure pre l st = .ok st2)
    (hP : checkOK measure st.entries) : checkOK measure st2.entries := by
  cases l with
  | nil =>
    rw [walkList_nil] at h
    cases h
    exact hP
  | cons n rest =>
    rw [walkList_cons] at h
    split at h
    · cases h
    · next st1 heq =>
      exact walkList_check pm df di measure pre rest st1 st2 h
        (walkNode_check pm df di measure pre n st st1 heq hP)

end

/-- C4: the size ceiling is enforced: on success every tracked checkpoint
(the output size after each regular file's content was copied) is within the
10 MiB ceiling, and when a checkpoint exceeds the ceiling the walk fails, the
error is exactly the size-limit error, and `createTarball` returns that error
and no archive. -/
theorem c4_size_limit (compile : List String → Except String (String → Bool))
    (measure : List TarEntry → Nat) (root : List FSNode) (dockerfile : String) :
    (∀ es, createTarball compile measure root dockerfile = .ok es → checkOK measure es) ∧
    (∀ di content pm e,
      resolveIgnoreFile root (resolveDf dockerfile) = (di, .ok content) →
      compile (readIgnorePatterns content) = .ok pm →
      walkList pm (resolveDf dockerfile) di measure "" root
        { entries := [], foundDockerfile := false, fileCount := 0 } = .error e →
      e = sizeErrMsg ∧ createTarball compile measure root dockerfile = .error sizeErrMsg) := by
  constructor
  · intro es hok
    rw [createTarball.eq_def] at hok
    dsimp only at hok
    rcases hri : resolveIgnoreFile root (resolveDf dockerfile) with ⟨di, ic⟩
    rw [hri] at hok
    cases ic with
    | error e => cases hok
    | ok content =>
      dsimp only at hok
      cases hcm : compile (readIgnorePatterns content) with
      | error e =>
        rw [hcm] at hok
        cases hok
      | ok pm =>
        rw [hcm] at hok
        dsimp only at hok
        cases hw : walkList pm (resolveDf dockerfile) di measure "" root
            { entries := [], foundDockerfile := false, fileCount := 0 } with
        | error e =>
          rw [hw] at hok
          cases hok
        | ok st =>
          rw [hw] at hok
          dsimp only at hok
          split at hok
          · cases hok
            exact walkList_check pm (resolveDf dockerfile) di measure "" root _ st hw
              (fun k hk _ => absurd hk (by simp))
          · cases hok
  · intro di content pm e hres hcomp hw
    refine ⟨walkList_error_size pm (resolveDf dockerfile) di measure "" root _ e hw, ?_⟩
    rw [createTarball_walk compile measure root dockerfile di content pm hres hcomp, hw]
    rw [walkList_error_size pm (resolveDf dockerfile) di measure "" root _ e hw]

set_option maxRecDepth 400000 in
/-- C4 witness: a small context passes all checkpoints; under an output
measure that always exceeds the ceiling, packaging fails with exactly the
size-limit error. -/
theorem c4_witness :
    (createTarball compileLiteral measureContent
        [FSNode.file "Dockerfile" meta644 "FROM scratch\n"] "" =
      .ok [mkEntry "Dockerfile" meta644 .regular "FROM scratch\n"]) ∧
    measureContent ([mkEntry "Dockerfile" meta644 .regular "FROM scratch\n"].take 1) ≤ 10 * MiB ∧
    (walkList (fun p => (readIgnorePatterns defaultDockerIgnore).contains p)
        (resolveDf "") ".dockerignore" (fun _ => 11 * MiB) ""
        [FSNode.file "Dockerfile" meta644 "FROM scratch\n"]
        { entries := [], foundDockerfile := false, fileCount := 0 } = .error sizeErrMsg) ∧
    createTarball compileLiteral (fun _ => 11 * MiB)
        [FSNode.file "Dockerfile" meta644 "FROM scratch\n"] "" = .error sizeErrMsg :=
  ⟨by decide,
   (c4_size_limit compileLiteral measureContent
      [FSNode.file "Dockerfile" meta644 "FROM scratch\n"] "").1 _ (by decide) 0 (by decide)
      (by decide),
   by decide,
   ((c4_size_limit compileLiteral (fun _ => 11 * MiB)
      [FSNode.file "Dockerfile" meta644 "FROM scratch\n"] "").2 ".dockerignore"
      defaultDockerIgnore (fun p => (readIgnorePatterns defaultDockerIgnore).contains p)
      sizeErrMsg (by decide) rfl (by decide)).2⟩


/-! ## Claims C6 and C10 -/


/-- C6: the ignore file is resolved in the exact order
`<dockerfile>.dockerignore`, then `.dockerignore`, then the built-in default
pattern set, and exactly one of the three is used per call. -/
theorem c6_ignorefile_resolution (root : List FSNode) (df : String) :
    (∀ r, tryReadIgnoreFile root (df ++ ".dockerignore") = some r →
      resolveIgnoreFile root df = (df ++ ".dockerignore", r)) ∧
    (tryReadIgnoreFile root (df ++ ".dockerignore") = none →
      ∀ r, tryReadIgnoreFile root ".dockerignore" = some r →
        resolveIgnoreFile root df = (".dockerignore", r)) ∧
    (tryReadIgnoreFile root (df ++ ".dockerignore") = none →
      tryReadIgnoreFile root ".dockerignore" = none →
      resolveIgnoreFile root df = (".dockerignore", .ok defaultDockerIgnore)) := by
  refine ⟨fun r h1 => ?_, fun h1 r h2 => ?_, fun h1 h2 => ?_⟩ <;>
    rw [resolveIgnoreFile] <;> rw [h1] <;> try rw [h2]

/-- C6 witness: all three branches on concrete contexts. -/
theorem c6_witness :
    ((tryReadIgnoreFile
        [FSNode.file "Dockerfile.dockerignore" meta644 "a\n",
         FSNode.file ".dockerignore" meta644 "b\n"] ("Dockerfile" ++ ".dockerignore") =
      some (.ok "a\n")) ∧
     resolveIgnoreFile
        [FSNode.file "Dockerfile.dockerignore" meta644 "a\n",
         FSNode.file ".dockerignore" meta644 "b\n"] "Dockerfile" =
      ("Dockerfile" ++ ".dockerignore", .ok "a\n")) ∧
    ((tryReadIgnoreFile [FSNode.file ".dockerignore" meta644 "b\n"]
        ("Dockerfile" ++ ".dockerignore") = none) ∧
     (tryReadIgnoreFile [FSNode.file ".dockerignore" meta644 "b\n"] ".dockerignore" =
      some (.ok "b\n")) ∧
     resolveIgnoreFile [FSNode.file ".dockerignore" meta644 "b\n"] "Dockerfile" =
      (".dockerignore", .ok "b\n")) ∧
    ((tryReadIgnoreFile ([] : List FSNode) ("Dockerfile" ++ ".dockerignore") = none) ∧
     (tryReadIgnoreFile ([] : List FSNode) ".dockerignore" = none) ∧
     resolveIgnoreFile ([] : List FSNode) "Dockerfile" =
      (".dockerignore", .ok defaultDockerIgnore)) :=
  ⟨⟨by decide,
    (c6_ignorefile_resolution
      [FSNode.file "Dockerfile.dockerignore" meta644 "a\n",
       FSNode.file ".dockerignore" meta644 "b\n"] "Dockerfile").1 _ (by decide)⟩,
   ⟨by decide, by decide,
    (c6_ignorefile_resolution [FSNode.file ".dockerignore" meta644 "b\n"] "Dockerfile").2.1
      (by decide) _ (by decide)⟩,
   ⟨by decide, by decide,
    (c6_ignorefile_resolution ([] : List FSNode) "Dockerfile").2.2 (by decide) (by decide)⟩⟩

/-- C10: an empty dockerfile argument defaults to "Dockerfile": it is the
reserved always-included path, the Dockerfile-specific ignore file looked for
is "Dockerfile.dockerignore", packaging behaves exactly as if "Dockerfile"
had been passed, and if the walk completes without encountering "Dockerfile"
the call fails with the dockerfile-not-found error. -/
theorem c10_default_dockerfile :
    resolveDf "" = "Dockerfile" ∧
    (∀ compile measure root, createTarball compile measure root "" =
      createTarball compile measure root "Dockerfile") ∧
    (∀ root r, tryReadIgnoreFile root "Dockerfile.dockerignore" = some r →
      resolveIgnoreFile root (resolveDf "") = ("Dockerfile.dockerignore", r)) ∧
    (∀ compile measure root di content pm st,
      resolveIgnoreFile root (resolveDf "") = (di, .ok content) →
      compile (readIgnorePatterns content) = .ok pm →
      walkList pm "Dockerfile" di measure "" root
        { entries := [], foundDockerfile := false, fileCount := 0 } = .ok st →
      st.foundDockerfile = false →
      createTarball compile measure root "" =
        .error "the specified dockerfile could not be read: \x22Dockerfile\x22") := by
  have hdf : resolveDf "" = "Dockerfile" := by decide
  have hdf2 : resolveDf "Dockerfile" = "Dockerfile" := by decide
  refine ⟨hdf, fun compile measure root => ?_, fun root r h => ?_, ?_⟩
  · rw [createTarball.eq_def, createTarball.eq_def, hdf, hdf2]
  · rw [hdf]
    exact (c6_ignorefile_resolution root "Dockerfile").1 r h
  · intro compile measure root di content pm st hres hcomp hw hnf
    have h5 := c5_dockerfile_not_found compile measure root "" di content pm st
      (by rw [hdf]; rw [hdf] at hres; exact hres) hcomp (by rw [hdf]; exact hw) hnf
    rw [hdf] at h5
    exact h5

set_option maxRecDepth 400000 in
/-- C10 witness. -/
theorem c10_witness :
    resolveDf "" = "Dockerfile" ∧
    createTarball compileLiteral measureZero [FSNode.file "main.go" meta644 "x"] "" =
      createTarball compileLiteral measureZero [FSNode.file "main.go" meta644 "x"] "Dockerfile" ∧
    ((tryReadIgnoreFile [FSNode.file "Dockerfile.dockerignore" meta644 "p\n"]
        "Dockerfile.dockerignore" = some (.ok "p\n")) ∧
     resolveIgnoreFile [FSNode.file "Dockerfile.dockerignore" meta644 "p\n"] (resolveDf "") =
      ("Dockerfile.dockerignore", .ok "p\n")) ∧
    createTarball compileLiteral measureZero [FSNode.file "main.go" meta644 "x"] "" =
      .error "the specified dockerfile could not be read: \x22Dockerfile\x22" :=
  ⟨c10_default_dockerfile.1,
   c10_default_dockerfile.2.1 compileLiteral measureZero [FSNode.file "main.go" meta644 "x"],
   ⟨by decide,
    c10_default_dockerfile.2.2.1 [FSNode.file "Dockerfile.dockerignore" meta644 "p\n"] _ (by decide)⟩,
   c10_default_dockerfile.2.2.2 compileLiteral measureZero [FSNode.file "main.go" meta644 "x"]
     ".dockerignore" defaultDockerIgnore
     (fun p => (readIgnorePatterns defaultDockerIgnore).contains p)
     { entries := [mkEntry "main.go" meta644 .regular "x"],
       foundDockerfile := false, fileCount := 1 }
     (by decide) rfl (by decide) rfl⟩


/-! ## Claims C7 and C8 -/


/-- C7: `convertPort` applies its checks in strict order: target range first,
then host-IP rejection, then published-equals-target, then the protocol
enumeration; for an input violating several checks the reported error is the
earliest one. -/
theorem c7_convertPort_order (port : ServicePortConfig) :
    ((port.target < 1 ∨ port.target > 32767) →
      convertPort port =
        .error ("port target must be an integer between 1 and 32767: " ++ toString port.target)) ∧
    (1 ≤ port.target → port.target ≤ 32767 → port.hostIP ≠ "" →
      convertPort port = .error "port host_ip is not supported") ∧
    (1 ≤ port.target → port.target ≤ 32767 → port.hostIP = "" →
      port.published ≠ "" → port.published ≠ toString port.target →
      convertPort port =
        .error ("port published must be empty or equal to target: " ++ port.published)) ∧
    (1 ≤ port.target → port.target ≤ 32767 → port.hostIP = "" →
      (port.published = "" ∨ port.published = toString port.target) →
      port.protocol ≠ "" → port.protocol ≠ "tcp" → port.protocol ≠ "udp" →
      port.protocol ≠ "http" → port.protocol ≠ "http2" → port.protocol ≠ "grpc" →
      convertPort port =
        .error ("port protocol not one of [tcp udp http http2 grpc]: " ++ port.protocol)) := by
  refine ⟨fun h => ?_, fun h1 h2 h3 => ?_, fun h1 h2 h3 h4 h5 => ?_,
    fun h1 h2 h3 h4 h5 h6 h7 h8 h9 h10 => ?_⟩
  · rw [convertPort, if_pos]
    simp only [Bool.or_eq_true, decide_eq_true_eq]
    omega
  · rw [convertPort, if_neg (by simp; omega), if_pos (by simp [h3])]
  · rw [convertPort, if_neg (by simp; omega), if_neg (by simp [h3]),
      if_pos (by simp [h4, h5])]
  · rw [convertPort, if_neg (by simp; omega), if_neg (by simp [h3]),
      if_neg (by simp; intro hne; rcases h4 with h4 | h4; exact absurd h4 hne; exact h4)]
    rw [show parseProtocol port.protocol =
        .error ("port protocol not one of [tcp udp http http2 grpc]: " ++ port.protocol) from ?_]
    rw [parseProtocol, if_neg (by simp [h5]), if_neg (by simp [h6]), if_neg (by simp [h7]),
      if_neg (by simp [h8]), if_neg (by simp [h9]), if_neg (by simp [h10])]

/-- C7 witness: an input violating every check reports the target-range
error; fixing each check in turn surfaces the next error. -/
theorem c7_witness :
    ((0 < 1 ∨ (0 : Nat) > 32767) ∧
     convertPort { target := 0, hostIP := "1.2.3.4", published := "9", protocol := "bogus", mode := "bad" } =
      .error ("port target must be an integer between 1 and 32767: " ++ toString (0 : Nat))) ∧
    (convertPort { target := 80, hostIP := "1.2.3.4", published := "9", protocol := "bogus", mode := "bad" } =
      .error "port host_ip is not supported") ∧
    (convertPort { target := 80, hostIP := "", published := "9", protocol := "bogus", mode := "bad" } =
      .error ("port published must be empty or equal to target: " ++ "9")) ∧
    (convertPort { target := 80, hostIP := "", published := "80", protocol := "bogus", mode := "bad" } =
      .error ("port protocol not one of [tcp udp http http2 grpc]: " ++ "bogus")) :=
  ⟨⟨Or.inl (by decide),
    (c7_convertPort_order { target := 0, hostIP := "1.2.3.4", published := "9", protocol := "bogus", mode := "bad" }).1
      (Or.inl (by decide))⟩,
   (c7_convertPort_order { target := 80, hostIP := "1.2.3.4", published := "9", protocol := "bogus", mode := "bad" }).2.1
     (by decide) (by decide) (by decide),
   (c7_convertPort_order { target := 80, hostIP := "", published := "9", protocol := "bogus", mode := "bad" }).2.2.1
     (by decide) (by decide) rfl (by decide) (by decide),
   (c7_convertPort_order { target := 80, hostIP := "", published := "80", protocol := "bogus", mode := "bad" }).2.2.2
     (by decide) (by decide) rfl (Or.inr (by decide)) (by decide) (by decide) (by decide)
     (by decide) (by decide) (by decide)⟩

/-- C8: mode resolution of `convertPort` for inputs that pass validation and
whose protocol parses to `proto`: empty mode becomes host with a warning;
`host` stays host without a warning; `ingress` with a non-empty published
value yields host with a warning and the protocol unmodified; `ingress` with
tcp or udp protocol and no published value stays ingress with the protocol
downgraded to http and a warning; `ingress` otherwise stays ingress without a
warning; any other mode string is a fatal error.  The returned flag is
exactly whether the call set the process-wide had-warnings flag. -/
theorem c8_mode_resolution (port : ServicePortConfig) (proto : Protocol)
    (h1 : 1 ≤ port.target) (h2 : port.target ≤ 32767) (h3 : port.hostIP = "")
    (h4 : port.published = "" ∨ port.published = toString port.target)
    (h5 : parseProtocol port.protocol = .ok proto) :
    (port.mode = "" →
      convertPort port = .ok ({ target := port.target, protocol := proto, mode := .host }, true)) ∧
    (port.mode = "host" →
      convertPort port = .ok ({ target := port.target, protocol := proto, mode := .host }, false)) ∧
    (port.mode = "ingress" → port.published ≠ "" →
      convertPort port = .ok ({ target := port.target, protocol := proto, mode := .host }, true)) ∧
    (port.mode = "ingress" → port.published = "" → (proto = .tcp ∨ proto = .udp) →
      convertPort port = .ok ({ target := port.target, protocol := .http, mode := .ingress }, true)) ∧
    (port.mode = "ingress" → port.published = "" → proto ≠ .tcp → proto ≠ .udp →
      convertPort port = .ok ({ target := port.target, protocol := proto, mode := .ingress }, false)) ∧
    (port.mode ≠ "" → port.mode ≠ "host" → port.mode ≠ "ingress" →
      convertPort port = .error ("port mode not one of [host ingress]: " ++ port.mode)) := by
  have hpre : ∀ x : Except String (v1Port × Bool),
      (match parseProtocol port.protocol with
        | .error e => .error e
        | .ok p =>
          (if port.mode == "" then .ok ({ target := port.target, protocol := p, mode := .host }, true)
           else if port.mode == "host" then .ok ({ target := port.target, protocol := p, mode := .host }, false)
           else if port.mode == "ingress" then
             if port.published != "" then .ok (({ target := port.target, protocol := p, mode := .host } : v1Port), true)
             else if p == Protocol.tcp || p == Protocol.udp then
               .ok ({ target := port.target, protocol := .http, mode := .ingress }, true)
             else .ok ({ target := port.target, protocol := p, mode := .ingress }, false)
           else .error ("port mode not one of [host ingress]: " ++ port.mode))) = x →
      convertPort port = x := by
    intro x hx
    rw [convertPort, if_neg (by simp; omega), if_neg (by simp [h3]),
      if_neg (by simp; intro hne; rcases h4 with h4 | h4; exact absurd h4 hne; exact h4)]
    exact hx
  refine ⟨fun hm => hpre _ ?_, fun hm => hpre _ ?_, fun hm hp => hpre _ ?_,
    fun hm hp hproto => hpre _ ?_, fun hm hp hpt hpu => hpre _ ?_,
    fun hm1 hm2 hm3 => hpre _ ?_⟩ <;> rw [h5]
  · simp [hm]
  · simp [hm]
  · simp [hm, hp]
  · rcases hproto with hh | hh <;> simp [hm, hp, hh]
  · simp [hm, hp, hpt, hpu]
  · simp [hm1, hm2, hm3]

/-- C8 witness: the spec's own examples, including
`{mode: ingress, protocol: tcp, published: "1234", target: 1234}` yielding
`{mode: HOST, protocol: TCP}` with a warning. -/
theorem c8_witness :
    (convertPort { target := 1234 } = .ok ({ target := 1234, protocol := .any, mode := .host }, true)) ∧
    (convertPort { target := 1234, mode := "host" } =
      .ok ({ target := 1234, protocol := .any, mode := .host }, false)) ∧
    (convertPort { mode := "ingress", protocol := "tcp", published := "1234", target := 1234 } =
      .ok ({ target := 1234, protocol := .tcp, mode := .host }, true)) ∧
    (convertPort { mode := "ingress", protocol := "tcp", target := 1234 } =
      .ok ({ target := 1234, protocol := .http, mode := .ingress }, true)) ∧
    (convertPort { mode := "ingress", protocol := "grpc", target := 1234 } =
      .ok ({ target := 1234, protocol := .grpc, mode := .ingress }, false)) ∧
    (convertPort { mode := "Host", target := 1234 } =
      .error ("port mode not one of [host ingress]: " ++ "Host")) :=
  ⟨(c8_mode_resolution { target := 1234 } .any (by decide) (by decide) rfl (Or.inl rfl) rfl).1 rfl,
   (c8_mode_resolution { target := 1234, mode := "host" } .any (by decide) (by decide) rfl
      (Or.inl rfl) rfl).2.1 rfl,
   (c8_mode_resolution { mode := "ingress", protocol := "tcp", published := "1234", target := 1234 }
      .tcp (by decide) (by decide) rfl (Or.inr (by decide)) rfl).2.2.1 rfl (by decide),
   (c8_mode_resolution { mode := "ingress", protocol := "tcp", target := 1234 } .tcp
      (by decide) (by decide) rfl (Or.inl rfl) rfl).2.2.2.1 rfl rfl (Or.inl rfl),
   (c8_mode_resolution { mode := "ingress", protocol := "grpc", target := 1234 } .grpc
      (by decide) (by decide) rfl (Or.inl rfl) rfl).2.2.2.2.1 rfl rfl (by decide) (by decide),
   (c8_mode_resolution { mode := "Host", target := 1234 } .any (by decide) (by decide) rfl
      (Or.inl rfl) rfl).2.2.2.2.2 (by decide) (by decide) (by decide)⟩


/-! ## Claim C9 -/


theorem charOfNat_toNat (n : Nat) (h : n < 55296) : (Char.ofNat n).toNat = n := by
  rw [Char.ofNat, dif_pos (Or.inl h)]
  simp [Char.ofNatAux, Char.toNat, UInt32.toNat]

theorem toLower_eq_ite (c : Char) :
    Char.toLower c =
      if 65 ≤ c.toNat ∧ c.toNat ≤ 90 then Char.ofNat (c.toNat + 32) else c := rfl

theorem toLower_idem (c : Char) : (Char.toLower c).toLower = Char.toLower c := by
  rw [toLower_eq_ite c]
  split
  · next h =>
    rw [toLower_eq_ite]
    rw [if_neg]
    rw [charOfNat_toNat (c.toNat + 32) (by omega)]
    omega
  · rw [toLower_eq_ite]
    split <;> rename_i h2
    · exact absurd h2 (by assumption)
    · rfl

mutual

theorem collapseRuns_map_lower (lower : Char → Char)
    (hidem : ∀ c, lower (lower c) = lower c) (hhyph : lower '-' = '-') (l : List Char) :
    (collapseRuns (l.map lower)).map lower = collapseRuns (l.map lower) := by
  cases l with
  | nil => rfl
  | cons c rest =>
    rw [List.map_cons, collapseRuns]
    split
    · rw [List.map_cons, hidem, collapseRuns_map_lower lower hidem hhyph rest]
    · rw [List.map_cons, hhyph, afterRun_map_lower lower hidem hhyph rest]

theorem afterRun_map_lower (lower : Char → Char)
    (hidem : ∀ c, lower (lower c) = lower c) (hhyph : lower '-' = '-') (l : List Char) :
    (afterRun (l.map lower)).map lower = afterRun (l.map lower) := by
  cases l with
  | nil => rfl
  | cons c rest =>
    rw [List.map_cons, afterRun]
    split
    · rw [List.map_cons, hidem, collapseRuns_map_lower lower hidem hhyph rest]
    · exact afterRun_map_lower lower hidem hhyph rest

end

mutual

theorem collapseRuns_idem (l : List Char) : collapseRuns (collapseRuns l) = collapseRuns l := by
  cases l with
  | nil => rfl
  | cons c rest =>
    rw [collapseRuns]
    split
    · next h =>
      rw [collapseRuns, if_pos h, collapseRuns_idem rest]
    · rw [collapseRuns, if_neg (by decide), afterRun_idem rest]

theorem afterRun_idem (l : List Char) : afterRun (afterRun l) = afterRun l := by
  cases l with
  | nil => rfl
  | cons c rest =>
    rw [afterRun]
    split
    · next h =>
      rw [afterRun, if_pos h, collapseRuns_idem rest]
    · exact afterRun_idem rest

end

set_option maxRecDepth 4000 in
/-- C9 counterexample: the run-collapsing and leading-hyphen clauses of the
claim are false of the program.  `strings.ToLower` applies the Unicode case
mapping, which sends the non-alphanumeric U+212A KELVIN SIGN to the ASCII
letter `k` (that is what `goToLowerKelvin` records); accordingly Go computes
`NormalizeServiceName "\u212A" = "k"` — the leading non-alphanumeric is not
turned into a hyphen — and `NormalizeServiceName "\u212A_x" = "k-x"`, which
differs from `NormalizeServiceName "_x" = "-x"`, so dropping the first of
two consecutive non-alphanumerics changes the result. -/
theorem c9_counterexample :
    (isServiceNameChar '\u212A' = false) ∧
    ((NormalizeServiceName goToLowerKelvin (String.mk ['\u212A'])).data = ['k'] ∧ 'k' ≠ '-') ∧
    (isServiceNameChar '_' = false ∧
     NormalizeServiceName goToLowerKelvin (String.mk ['\u212A', '_', 'x']) = "k-x" ∧
     NormalizeServiceName goToLowerKelvin (String.mk ['_', 'x']) = "-x" ∧
     ("k-x" : String) ≠ "-x") := by
  refine ⟨by decide, ⟨by decide, by decide⟩, by decide, by decide, by decide, by decide⟩

/-- C9 (amended): with the character class evaluated after lowercasing —
which is how the code applies it, the regexp running on the already
lowercased string — `NormalizeServiceName` is idempotent for every string,
consecutive characters that are non-alphanumeric after lowercasing collapse
to a single hyphen, and a leading character that is non-alphanumeric after
lowercasing becomes a leading hyphen rather than being stripped.  The
hypotheses on the abstract case mapping `lower` hold of the Unicode simple
lowercase mapping used by `strings.ToLower`: it is idempotent and fixes
`-`.  On ASCII inputs the amended clauses coincide with the original ones. -/
theorem c9_normalize_idempotent (lower : Char → Char)
    (hidem : ∀ c, lower (lower c) = lower c) (hhyph : lower '-' = '-') :
    (∀ s : String, NormalizeServiceName lower (NormalizeServiceName lower s) =
      NormalizeServiceName lower s) ∧
    (∀ (a b : Char) (l : List Char), isServiceNameChar (lower a) = false →
      isServiceNameChar (lower b) = false →
      NormalizeServiceName lower (String.mk (a :: b :: l)) =
        NormalizeServiceName lower (String.mk (b :: l))) ∧
    (∀ (a : Char) (l : List Char), isServiceNameChar (lower a) = false →
      ∃ t, (NormalizeServiceName lower (String.mk (a :: l))).data = '-' :: t) := by
  refine ⟨fun s => ?_, fun a b l ha hb => ?_, fun a l ha => ?_⟩
  · rw [NormalizeServiceName, NormalizeServiceName]
    show String.mk (collapseRuns ((collapseRuns (s.data.map lower)).map lower)) = _
    rw [collapseRuns_map_lower lower hidem hhyph s.data, collapseRuns_idem]
  · rw [NormalizeServiceName, NormalizeServiceName]
    show String.mk (collapseRuns ((a :: b :: l).map lower)) =
      String.mk (collapseRuns ((b :: l).map lower))
    simp only [List.map_cons]
    rw [collapseRuns, if_neg (by rw [ha]; intro hh; cases hh)]
    rw [collapseRuns, if_neg (by rw [hb]; intro hh; cases hh)]
    rw [afterRun, if_neg (by rw [hb]; intro hh; cases hh)]
  · rw [NormalizeServiceName]
    show ∃ t, (String.mk (collapseRuns ((a :: l).map lower))).data = '-' :: t
    simp only [List.map_cons]
    rw [collapseRuns, if_neg (by rw [ha]; intro hh; cases hh)]
    exact ⟨_, rfl⟩

/-- C9 witness: idempotence, run collapsing and leading-hyphen preservation
on the repository's own (ASCII) test vectors, instantiating the case
mapping at the ASCII lowering, with which `strings.ToLower` agrees on these
inputs. -/
theorem c9_witness :
    (NormalizeServiceName Char.toLower (NormalizeServiceName Char.toLower "$ymb0ls") =
      NormalizeServiceName Char.toLower "$ymb0ls") ∧
    (isServiceNameChar (Char.toLower '-') = false ∧
     isServiceNameChar (Char.toLower '_') = false ∧
     NormalizeServiceName Char.toLower (String.mk ['-', '_', 'x']) =
       NormalizeServiceName Char.toLower (String.mk ['_', 'x'])) ∧
    (∃ t, (NormalizeServiceName Char.toLower (String.mk ['_', 'b', 'l', 'a', 'h'])).data = '-' :: t) :=
  ⟨(c9_normalize_idempotent Char.toLower toLower_idem (by decide)).1 "$ymb0ls",
   ⟨by decide, by decide,
    (c9_normalize_idempotent Char.toLower toLower_idem (by decide)).2.1 '-' '_' ['x']
      (by decide) (by decide)⟩,
   (c9_normalize_idempotent Char.toLower toLower_idem (by decide)).2.2 '_' ['b', 'l', 'a', 'h']
     (by decide)⟩


/-! ## Packaging ignores mtime, uid and gid -/


theorem eraseNode_name (n : FSNode) : nodeName (eraseNode n) = nodeName n := by
  cases n <;> rfl

theorem eraseMeta_fields {m1 m2 : FileMeta} (h : eraseMeta m1 = eraseMeta m2) :
    m1.mode = m2.mode ∧ m1.atime = m2.atime ∧ m1.ctime = m2.ctime ∧
      m1.uname = m2.uname ∧ m1.gname = m2.gname := by
  simp only [eraseMeta, FileMeta.mk.injEq] at h
  exact ⟨h.1, h.2.2.2.2.1, h.2.2.2.2.2.1, h.2.2.2.2.2.2.1, h.2.2.2.2.2.2.2⟩

theorem mkEntry_congr (rel : String) {m1 m2 : FileMeta} (k : EntryKind) (c : String)
    (h : eraseMeta m1 = eraseMeta m2) : mkEntry rel m1 k c = mkEntry rel m2 k c := by
  obtain ⟨h1, h2, h3, h4, h5⟩ := eraseMeta_fields h
  simp [mkEntry, h1, h2, h3, h4, h5]

mutual

theorem walkNode_erase (pm : String → Bool) (df di : String) (measure : List TarEntry → Nat)
    (pre : String) (n1 n2 : FSNode) (he : eraseNode n1 = eraseNode n2) (st : TarState) :
    walkNode pm df di measure pre n1 st = walkNode pm df di measure pre n2 st := by
  cases n1 with
  | file nm1 m1 c1 =>
    cases n2 with
    | file nm2 m2 c2 =>
      simp only [eraseNode, FSNode.file.injEq] at he
      obtain ⟨hnm, hm, hc⟩ := he
      subst hnm
      subst hc
      rw [walkNode_file, walkNode_file]
      simp only [mkEntry_congr _ _ _ hm]
    | dir nm2 m2 ch2 => simp [eraseNode] at he
    | other nm2 m2 => simp [eraseNode] at he
  | dir nm1 m1 ch1 =>
    cases n2 with
    | file nm2 m2 c2 => simp [eraseNode] at he
    | dir nm2 m2 ch2 =>
      simp only [eraseNode, FSNode.dir.injEq] at he
      obtain ⟨hnm, hm, hch⟩ := he
      subst hnm
      rw [walkNode_dir, walkNode_dir]
      simp only [mkEntry_congr _ _ _ hm,
        walkList_erase pm df di measure (joinPath pre nm1) ch1 ch2 hch]
    | other nm2 m2 => simp [eraseNode] at he
  | other nm1 m1 =>
    cases n2 with
    | file nm2 m2 c2 => simp [eraseNode] at he
    | dir nm2 m2 ch2 => simp [eraseNode] at he
    | other nm2 m2 =>
      simp only [eraseNode, FSNode.other.injEq] at he
      obtain ⟨hnm, hm⟩ := he
      subst hnm
      rw [walkNode_other, walkNode_other]
      simp only [mkEntry_congr _ _ _ hm]

theorem walkList_erase (pm : String → Bool) (df di : String) (measure : List TarEntry → Nat)
    (pre : String) (l1 l2 : List FSNode) (he : eraseList l1 = eraseList l2) :
    ∀ st, walkList pm df di measure pre l1 st = walkList pm df di measure pre l2 st := by
  intro st
  cases l1 with
  | nil =>
    cases l2 with
    | nil => rfl
    | cons n2 t2 => simp [eraseList] at he
  | cons n1 t1 =>
    cases l2 with
    | nil => simp [eraseList] at he
    | cons n2 t2 =>
      simp only [eraseList, List.cons.injEq] at he
      obtain ⟨hn, ht⟩ := he
      rw [walkList_cons, walkList_cons, walkNode_erase pm df di measure pre n1 n2 hn st]
      cases hw : walkNode pm df di measure pre n2 st with
      | error e => rfl
      | ok st1 => exact walkList_erase pm df di measure pre t1 t2 ht st1

end

theorem find_erase (c : String) (l1 l2 : List FSNode) (he : eraseList l1 = eraseList l2) :
    Option.map eraseNode (l1.find? (fun n => nodeName n == c)) =
      Option.map eraseNode (l2.find? (fun n => nodeName n == c)) := by
  induction l1 generalizing l2 with
  | nil =>
    cases l2 with
    | nil => rfl
    | cons n2 t2 => simp [eraseList] at he
  | cons n1 t1 ih =>
    cases l2 with
    | nil => simp [eraseList] at he
    | cons n2 t2 =>
      simp only [eraseList, List.cons.injEq] at he
      obtain ⟨hn, ht⟩ := he
      have hnm : nodeName n1 = nodeName n2 := by
        rw [← eraseNode_name n1, hn, eraseNode_name]
      rw [List.find?_cons, List.find?_cons, hnm]
      cases hpa : (nodeName n2 == c) with
      | true => simp [hn]
      | false => exact ih t2 ht

theorem lookupNode_erase (p : List String) (l1 l2 : List FSNode)
    (he : eraseList l1 = eraseList l2) :
    Option.map eraseNode (lookupNode l1 p) = Option.map eraseNode (lookupNode l2 p) := by
  induction p generalizing l1 l2 with
  | nil => rfl
  | cons c rest ih =>
    cases rest with
    | nil =>
      simp only [lookupNode]
      exact find_erase c l1 l2 he
    | cons c2 rest2 =>
      simp only [lookupNode]
      have hf := find_erase c l1 l2 he
      cases h1 : l1.find? (fun n => nodeName n == c) with
      | none =>
        rw [h1] at hf
        cases h2 : l2.find? (fun n => nodeName n == c) with
        | none => rfl
        | some n2 =>
          rw [h2] at hf
          simp at hf
      | some n1 =>
        rw [h1] at hf
        cases h2 : l2.find? (fun n => nodeName n == c) with
        | none =>
          rw [h2] at hf
          simp at hf
        | some n2 =>
          rw [h2] at hf
          replace hf : eraseNode n1 = eraseNode n2 := by simpa using hf
          cases n1 with
          | file nm1 m1 cc1 =>
            cases n2 with
            | file nm2 m2 cc2 => rfl
            | dir nm2 m2 ch2 => simp [eraseNode] at hf
            | other nm2 m2 => rfl
          | dir nm1 m1 ch1 =>
            cases n2 with
            | file nm2 m2 cc2 => simp [eraseNode] at hf
            | dir nm2 m2 ch2 =>
              simp only [eraseNode, FSNode.dir.injEq] at hf
              exact ih ch1 ch2 hf.2.2
            | other nm2 m2 => simp [eraseNode] at hf
          | other nm1 m1 =>
            cases n2 with
            | file nm2 m2 cc2 => rfl
            | dir nm2 m2 ch2 => simp [eraseNode] at hf
            | other nm2 m2 => rfl

theorem tryRead_erase (name : String) (l1 l2 : List FSNode)
    (he : eraseList l1 = eraseList l2) :
    tryReadIgnoreFile l1 name = tryReadIgnoreFile l2 name := by
  rw [tryReadIgnoreFile, tryReadIgnoreFile]
  have hl := lookupNode_erase (splitPath name) l1 l2 he
  cases h1 : lookupNode l1 (splitPath name) with
  | none =>
    rw [h1] at hl
    cases h2 : lookupNode l2 (splitPath name) with
    | none => rfl
    | some n2 =>
      rw [h2] at hl
      simp at hl
  | some n1 =>
    rw [h1] at hl
    cases h2 : lookupNode l2 (splitPath name) with
    | none =>
      rw [h2] at hl
      simp at hl
    | some n2 =>
      rw [h2] at hl
      replace hl : eraseNode n1 = eraseNode n2 := by simpa using hl
      cases n1 <;> cases n2 <;> simp_all [eraseNode]

theorem resolveIgnoreFile_erase (df : String) (l1 l2 : List FSNode)
    (he : eraseList l1 = eraseList l2) :
    resolveIgnoreFile l1 df = resolveIgnoreFile l2 df := by
  rw [resolveIgnoreFile, resolveIgnoreFile,
    tryRead_erase (df ++ ".dockerignore") l1 l2 he, tryRead_erase ".dockerignore" l1 l2 he]

/-- Packaging reads nothing from the tree but names, kinds, modes and
contents: trees equal after erasing mtime, uid and gid package identically. -/
theorem createTarball_erase (compile : List String → Except String (String → Bool))
    (measure : List TarEntry → Nat) (dockerfile : String) (t1 t2 : List FSNode)
    (he : eraseList t1 = eraseList t2) :
    createTarball compile measure t1 dockerfile = createTarball compile measure t2 dockerfile := by
  rw [createTarball.eq_def, createTarball.eq_def]
  dsimp only
  rw [resolveIgnoreFile_erase (resolveDf dockerfile) t1 t2 he]
  cases resolveIgnoreFile t2 (resolveDf dockerfile) with
  | mk di ic =>
    cases ic with
    | error e => rfl
    | ok content =>
      dsimp only
      cases compile (readIgnorePatterns content) with
      | error e => rfl
      | ok pm =>
        dsimp only
        rw [walkList_erase pm (resolveDf dockerfile) di measure "" t1 t2 he]


/-! ## Claims C2 and C1 -/


/-- Header constants the packer forces on every entry. -/
def entryConsts (e : TarEntry) : Prop :=
  e.mtime = sourceDateEpoch ∧ e.uid = 0 ∧ e.gid = 0

/-- Relative-path shape: nonempty, not beginning with the separator. -/
def relOk (s : String) : Prop :=
  ∃ c cs, s.data = c :: cs ∧ c ≠ '/'

theorem joinPath_shape (pre nm : String)
    (hpre : pre = "" ∨ relOk pre) (hnm : nameOk nm = true) : relOk (joinPath pre nm) := by
  have hnm2 : relOk nm := by
    rw [nameOk] at hnm
    cases hd : nm.data with
    | nil => rw [hd] at hnm; cases hnm
    | cons c cs =>
      rw [hd] at hnm
      exact ⟨c, cs, hd, of_decide_eq_true hnm⟩
  rcases hpre with hpre | hpre
  · subst hpre
    simpa [joinPath] using hnm2
  · obtain ⟨c, cs, hdata, hc⟩ := hpre
    have hne : pre ≠ "" := by
      intro hh
      rw [hh] at hdata
      cases hdata
    rw [joinPath, if_neg (by simpa using hne)]
    refine ⟨c, cs ++ '/' :: nm.data, ?_, hc⟩
    rw [String.data_append, String.data_append, hdata]
    simp

mutual

theorem walkNode_consts (pm : String → Bool) (df di : String) (measure : List TarEntry → Nat)
    (pre : String) (n : FSNode) (st st2 : TarState)
    (h : walkNode pm df di measure pre n st = .ok st2)
    (hpre : pre = "" ∨ relOk pre) (hok : nodeNamesOk n = true)
    (hst : ∀ e ∈ st.entries, entryConsts e ∧ relOk e.name) :
    ∀ e ∈ st2.entries, entryConsts e ∧ relOk e.name := by
  cases n with
  | file nm meta content =>
    rw [walkNode_file] at h
    dsimp only at h
    by_cases hdfb : (!st.foundDockerfile && (joinPath pre nm == df)) = true <;>
      [rw [if_pos hdfb] at h; rw [if_neg hdfb] at h] <;>
    · split at h
      · cases h
        exact hst
      · split at h
        · cases h
        · cases h
          intro e he
          try dsimp only at he
          rcases List.mem_append.mp he with he | he
          · exact hst e he
          · rcases List.mem_singleton.mp he with rfl
            exact ⟨⟨rfl, rfl, rfl⟩, joinPath_shape pre nm hpre (by simpa [nodeNamesOk] using hok)⟩
  | dir nm meta children =>
    rw [walkNode_dir] at h
    dsimp only at h
    have hok2 : nameOk nm = true ∧ listNamesOk children = true := by
      simpa [nodeNamesOk] using hok
    by_cases hdfb : (!st.foundDockerfile && (joinPath pre nm == df)) = true <;>
      [rw [if_pos hdfb] at h; rw [if_neg hdfb] at h] <;>
    · split at h
      · cases h
        exact hst
      · refine walkList_consts pm df di measure _ children _ st2 h
          (Or.inr (joinPath_shape pre nm hpre hok2.1)) hok2.2 ?_
        intro e he
        try dsimp only at he
        rcases List.mem_append.mp he with he | he
        · exact hst e he
        · rcases List.mem_singleton.mp he with rfl
          exact ⟨⟨rfl, rfl, rfl⟩, joinPath_shape pre nm hpre hok2.1⟩
  | other nm meta =>
    rw [walkNode_other] at h
    dsimp only at h
    by_cases hdfb : (!st.foundDockerfile && (joinPath pre nm == df)) = true <;>
      [rw [if_pos hdfb] at h; rw [if_neg hdfb] at h] <;>
    · split at h
      · cases h
        exact hst
      · cases h
        intro e he
        try dsimp only at he
        rcases List.mem_append.mp he with he | he
        · exact hst e he
        · rcases List.mem_singleton.mp he with rfl
          exact ⟨⟨rfl, rfl, rfl⟩, joinPath_shape pre nm hpre (by simpa [nodeNamesOk] using hok)⟩

theorem walkList_consts (pm : String → Bool) (df di : String) (measure : List TarEntry → Nat)
    (pre : String) (l : List FSNode) (st st2 : TarState)
    (h : walkList pm df di measure pre l st = .ok st2)
    (hpre : pre = "" ∨ relOk pre) (hok : listNamesOk l = true)
    (hst : ∀ e ∈ st.entries, entryConsts e ∧ relOk e.name) :
    ∀ e ∈ st2.entries, entryConsts e ∧ relOk e.name := by
  cases l with
  | nil =>
    rw [walkList_nil] at h
    cases h
    exact hst
  | cons n rest =>
    rw [walkList_cons] at h
    split at h
    · cases h
    · next st1 heq =>
      have hok2 : nodeNamesOk n = true ∧ listNamesOk rest = true := by
        simpa [listNamesOk] using hok
      exact walkList_consts pm df di measure pre rest st1 st2 h hpre hok2.2
        (walkNode_consts pm df di measure pre n st st1 heq hpre hok2.1 hst)

end

/-- C2 (amended): packaging normalizes exactly the modification time, the
owner id and the group id (forced to the epoch constant and zero); the
permission mode, access time, change time and owner/group names are read
from the file system and written into the archive unmodified.
Reproducibility therefore holds in this form: two trees that agree after
erasing mtime, uid and gid — that is, agree on names, kinds, contents,
modes, access/change times and owner/group names — produce identical
archives (the serialized bytes being a function of the entries); and on
success every entry carries the fixed epoch mtime, zero uid/gid and a
nonempty relative slash path. -/
theorem c2_reproducible (compile : List String → Except String (String → Bool))
    (measure : List TarEntry → Nat) (dockerfile : String) (t1 t2 : List FSNode) :
    (eraseList t1 = eraseList t2 →
      createTarball compile measure t1 dockerfile = createTarball compile measure t2 dockerfile) ∧
    (∀ es, createTarball compile measure t1 dockerfile = .ok es → listNamesOk t1 = true →
      ∀ e ∈ es, (e.mtime = sourceDateEpoch ∧ e.uid = 0 ∧ e.gid = 0) ∧
        ∃ c cs, e.name.data = c :: cs ∧ c ≠ '/') := by
  constructor
  · exact fun he => createTarball_erase compile measure dockerfile t1 t2 he
  · intro es hok hnames
    rw [createTarball.eq_def] at hok
    dsimp only at hok
    rcases hri : resolveIgnoreFile t1 (resolveDf dockerfile) with ⟨di, ic⟩
    rw [hri] at hok
    cases ic with
    | error e => cases hok
    | ok content =>
      dsimp only at hok
      cases hcm : compile (readIgnorePatterns content) with
      | error e =>
        rw [hcm] at hok
        cases hok
      | ok pm =>
        rw [hcm] at hok
        dsimp only at hok
        cases hw : walkList pm (resolveDf dockerfile) di measure "" t1
            { entries := [], foundDockerfile := false, fileCount := 0 } with
        | error e =>
          rw [hw] at hok
          cases hok
        | ok st =>
          rw [hw] at hok
          dsimp only at hok
          split at hok
          · cases hok
            exact walkList_consts pm (resolveDf dockerfile) di measure "" t1 _ st hw
              (Or.inl rfl) hnames (fun e he => absurd he (by simp))
          · cases hok

set_option maxRecDepth 400000 in
/-- C2 counterexample: byte-identical trees need not give byte-identical
archives.  `tar.FileInfoHeader` also reads the access time (and change time
and owner/group names) from the file system, `createTarball` never clears
them, and the PAX format the writer auto-selects emits them into the
stream.  Two contexts whose single entry agrees byte-for-byte in name,
permission mode, content — and even in mtime, uid and gid — but was last
read at a different time (exactly what a re-run over an unchanged directory
sees, the first run's reads having updated atime) produce different archive
entries, hence different archive bytes. -/
theorem c2_counterexample :
    (createTarball compileLiteral measureZero [FSNode.file "Dockerfile" metaRun1 "X"] "" =
      .ok [mkEntry "Dockerfile" metaRun1 .regular "X"]) ∧
    (createTarball compileLiteral measureZero [FSNode.file "Dockerfile" metaAtime "X"] "" =
      .ok [mkEntry "Dockerfile" metaAtime .regular "X"]) ∧
    ({ mkEntry "Dockerfile" metaRun1 .regular "X" with atime := metaAtime.atime } =
      mkEntry "Dockerfile" metaAtime .regular "X") ∧
    [mkEntry "Dockerfile" metaRun1 .regular "X"] ≠
      [mkEntry "Dockerfile" metaAtime .regular "X"] := by
  refine ⟨by decide, by decide, by decide, by decide⟩

set_option maxRecDepth 400000 in
/-- C2 witness: trees differing only in mtime, uid and gid. -/
theorem c2_witness :
    (eraseList [FSNode.file "Dockerfile" metaRun1 "X"] =
      eraseList [FSNode.file "Dockerfile" metaRun2 "X"]) ∧
    (createTarball compileLiteral measureZero [FSNode.file "Dockerfile" metaRun1 "X"] "" =
      createTarball compileLiteral measureZero [FSNode.file "Dockerfile" metaRun2 "X"] "") ∧
    (createTarball compileLiteral measureZero [FSNode.file "Dockerfile" metaRun1 "X"] "" =
      .ok [mkEntry "Dockerfile" metaRun1 .regular "X"]) ∧
    (listNamesOk [FSNode.file "Dockerfile" metaRun1 "X"] = true) ∧
    (((mkEntry "Dockerfile" metaRun1 .regular "X").mtime = sourceDateEpoch ∧
      (mkEntry "Dockerfile" metaRun1 .regular "X").uid = 0 ∧
      (mkEntry "Dockerfile" metaRun1 .regular "X").gid = 0) ∧
     ∃ c cs, (mkEntry "Dockerfile" metaRun1 .regular "X").name.data = c :: cs ∧ c ≠ '/') :=
  ⟨rfl,
   (c2_reproducible compileLiteral measureZero ""
      [FSNode.file "Dockerfile" metaRun1 "X"] [FSNode.file "Dockerfile" metaRun2 "X"]).1 rfl,
   by decide,
   by decide,
   (c2_reproducible compileLiteral measureZero ""
      [FSNode.file "Dockerfile" metaRun1 "X"] [FSNode.file "Dockerfile" metaRun2 "X"]).2
      [mkEntry "Dockerfile" metaRun1 .regular "X"]
      (by decide) (by decide) _ (List.mem_singleton.mpr rfl)⟩

set_option maxRecDepth 400000 in
/-- C1 counterexample: two contexts whose included files have identical paths
and contents, differing only in the permission mode bits (0644 vs 0755),
produce different archives.  The digest of `getRemoteBuildContext` is the
SHA-256 of the (compressed) serialization of exactly these entries, so it is
not a function of the uncompressed file contents alone: the mode metadata
flows into the hashed bytes via `tar.FileInfoHeader` (as do the unnormalized
access/change times and owner/group names, per the C2 counterexample). -/
theorem c1_counterexample :
    (createTarball compileLiteral measureZero
        [FSNode.file "Dockerfile" meta644 "FROM scratch\n"] "Dockerfile" =
      .ok [mkEntry "Dockerfile" meta644 .regular "FROM scratch\n"]) ∧
    (createTarball compileLiteral measureZero
        [FSNode.file "Dockerfile" meta755 "FROM scratch\n"] "Dockerfile" =
      .ok [mkEntry "Dockerfile" meta755 .regular "FROM scratch\n"]) ∧
    ([mkEntry "Dockerfile" meta644 .regular "FROM scratch\n"].map (fun e => (e.name, e.content)) =
      [mkEntry "Dockerfile" meta755 .regular "FROM scratch\n"].map (fun e => (e.name, e.content))) ∧
    [mkEntry "Dockerfile" meta644 .regular "FROM scratch\n"] ≠
      [mkEntry "Dockerfile" meta755 .regular "FROM scratch\n"] := by
  refine ⟨by decide, by decide, by decide, by decide⟩

/-- C1 (amended): the digest is a deterministic function of the archive
entries — paths, type flags, permission modes, contents, access/change
times and owner/group names — with exactly mtime, uid and gid normalized
away: contexts that agree after erasing those three fields receive equal
digests, for every encoding stage `enc` (the model of
base64 ∘ SHA-256 ∘ gzip ∘ tar-serialization applied to the entries). -/
theorem c1_digest_deterministic (enc : List TarEntry → String)
    (compile : List String → Except String (String → Bool))
    (measure : List TarEntry → Nat) (dockerfile : String) (t1 t2 : List FSNode)
    (he : eraseList t1 = eraseList t2) :
    remoteDigest enc compile measure t1 dockerfile = remoteDigest enc compile measure t2 dockerfile := by
  rw [remoteDigest, remoteDigest, createTarball_erase compile measure dockerfile t1 t2 he]

set_option maxRecDepth 400000 in
/-- C1 witness: same contents, modes, access/change times and owner names,
different mtime/uid/gid, equal digests. -/
theorem c1_digest_witness :
    (eraseList [FSNode.file "Dockerfile" metaRun1 "X"] =
      eraseList [FSNode.file "Dockerfile" metaRun2 "X"]) ∧
    remoteDigest (fun _ => "digest") compileLiteral measureZero
        [FSNode.file "Dockerfile" metaRun1 "X"] "" =
      remoteDigest (fun _ => "digest") compileLiteral measureZero
        [FSNode.file "Dockerfile" metaRun2 "X"] "" :=
  ⟨rfl,
   c1_digest_deterministic (fun _ => "digest") compileLiteral measureZero ""
     [FSNode.file "Dockerfile" metaRun1 "X"] [FSNode.file "Dockerfile" metaRun2 "X"] rfl⟩


end Defang
